import Mathlib

/-!
Verification of the retrieval pipeline of the `ai-rag-service`
(text chunking, entity detection, multi-strategy query merging,
result processing and the local-books fallback), shallowly embedded
from the Python sources under `app/core/text_chunking.py`,
`app/core/chroma_db.py` and `app/api/ai_refactored.py`.

Python strings are modelled as `List Char`; Python `int` as `Int`
(lengths are cast); a raised exception as `Except PyErr` /
`PyRes.exn`; a non-terminating `while` loop as fuel exhaustion
(`PyRes.timeout`).  Float literals that only occur in comparisons
(`0.7`, `0.8`, `0.3`) are modelled by the exact rationals 7/10, 8/10
and 3/10 via cross-multiplication; no claim in this development
depends on the rounding of those binary floats.
-/

/-- A Python string, as a list of characters. -/
abbrev Str := List Char

/-- Model of `str.data` of a Lean literal, used to write concrete Python strings. -/
def lit (s : String) : Str := s.data

deriving instance DecidableEq for Except

/-- Python's `\s` character class (ASCII part, which is all the sources use). -/
def pyIsSpace (c : Char) : Bool :=
  c = ' ' || c = '\t' || c = '\n' || c = '\x0d' || c = '\x0b' || c = '\x0c'

/-- ASCII `[A-Z]`. -/
def isUpperAZ (c : Char) : Bool := 'A' ≤ c && c ≤ 'Z'

/-- ASCII `[a-z]`. -/
def isLowerAZ (c : Char) : Bool := 'a' ≤ c && c ≤ 'z'

/-- ASCII `[A-Za-z]`. -/
def isAlphaAZ (c : Char) : Bool := isUpperAZ c || isLowerAZ c

/-- ASCII `[0-9]`. -/
def isDigit09 (c : Char) : Bool := '0' ≤ c && c ≤ '9'

/-- Python's `\w` word-character class (ASCII part). -/
def isWordChar (c : Char) : Bool := isAlphaAZ c || isDigit09 c || c = '_'

/-- The sentence-ending punctuation class `[.!?]`. -/
def isSentPunct (c : Char) : Bool := c = '.' || c = '!' || c = '?'

/-- Python `str.strip()`. -/
def pyStrip (s : Str) : Str :=
  ((s.dropWhile pyIsSpace).reverse.dropWhile pyIsSpace).reverse

/-- Python `str.lower()` on the characters the sources use
(ASCII letters plus the Croatian capitals appearing in the gazetteers). -/
def pyLowerChar (c : Char) : Char :=
  if isUpperAZ c then Char.ofNat (c.toNat + 32)
  else if c = 'Ć' then 'ć'
  else if c = 'Č' then 'č'
  else if c = 'Đ' then 'đ'
  else if c = 'Š' then 'š'
  else if c = 'Ž' then 'ž'
  else c

/-- Python `str.lower()`. -/
def pyLower (s : Str) : Str := s.map pyLowerChar

/-- Python `needle in hay` substring test (empty needle is contained). -/
def strContains : Str → Str → Bool
  | [], needle => needle.isEmpty
  | hay@(_ :: t), needle => needle.isPrefixOf hay || strContains t needle

/-- Python `str.split()` with no argument: split on whitespace runs,
dropping empty fields. -/
def pySplitWsAux : Str → Str → List Str
  | acc, [] => if acc.isEmpty then [] else [acc.reverse]
  | acc, c :: r =>
    if pyIsSpace c then
      if acc.isEmpty then pySplitWsAux [] r else acc.reverse :: pySplitWsAux [] r
    else pySplitWsAux (c :: acc) r

/-- Python `str.split()` (no separator argument). -/
def pySplitWs (s : Str) : List Str := pySplitWsAux [] s

/-- Python slice `s[a:b]` with `0 ≤ a`, `0 ≤ b` given as naturals. -/
def pySlice (s : Str) (a b : Nat) : Str := (s.take b).drop a

/-- Python slice `s[a:b]` with possibly negative `int` endpoints. -/
def pySliceInt (s : Str) (a b : Int) : Str :=
  let n : Int := s.length
  let a' : Nat := (if a < 0 then max 0 (n + a) else min a n).toNat
  let b' : Nat := (if b < 0 then max 0 (n + b) else min b n).toNat
  pySlice s a' b'

/-- Python `s[i]` for a known-in-range index (the sources only index
inside bounds); out of range yields a null character. -/
def charAtInt (s : Str) (i : Int) : Char :=
  if h : 0 ≤ i ∧ i.toNat < s.length then s.get ⟨i.toNat, h.2⟩ else '\x00'

/-- Python `str.rfind(c)`: index of the last occurrence, `-1` if absent. -/
def rfindChar (s : Str) (c : Char) : Int :=
  let rec go : Str → Int → Int → Int
    | [], _, best => best
    | d :: r, i, best => go r (i + 1) (if d = c then i else best)
  go s 0 (-1)

/-! ### `clean_text` (text_chunking.py, lines 50-58)

`re.sub(r'\s+', ' ', text)` collapses every whitespace run to a single
space; the two following substitutions insert a space between sentence
punctuation and a directly following letter; finally `strip()`. -/

/-- Model of `re.sub(r'\s+', ' ', text)`: state machine, the flag records whether
the previous character was part of a whitespace run. -/
def collapseWsAux : Bool → Str → Str
  | _, [] => []
  | inRun, c :: r =>
    if pyIsSpace c then
      if inRun then collapseWsAux true r else ' ' :: collapseWsAux true r
    else c :: collapseWsAux false r

def collapseWs (s : Str) : Str := collapseWsAux false s

/-- Model of `re.sub(r'([.!?])\s*([A-Z])', r'\1 \2', text)`.  Two-mode scanner:
after copying a punctuation character we buffer the following
whitespace; if the first non-space character is a capital the buffered
run is replaced by a single space, otherwise the buffer is emitted
verbatim and scanning resumes at that character.  (A failed attempt
cannot hide a later match: the pattern starts with `[.!?]`, and the
buffered characters are all whitespace.) -/
def fixPunct1Aux : Option Str → Str → Str
  | none, [] => []
  | some buf, [] => buf.reverse
  | none, c :: r =>
    if isSentPunct c then c :: fixPunct1Aux (some []) r
    else c :: fixPunct1Aux none r
  | some buf, c :: r =>
    if pyIsSpace c then fixPunct1Aux (some (c :: buf)) r
    else if isUpperAZ c then ' ' :: c :: fixPunct1Aux none r
    else if isSentPunct c then buf.reverse ++ c :: fixPunct1Aux (some []) r
    else buf.reverse ++ c :: fixPunct1Aux none r

def fixPunct1 (s : Str) : Str := fixPunct1Aux none s

/-- Model of `re.sub(r'([.!?])([A-Za-z])', r'\1 \2', text)`: scanning resumes
after the matched letter. -/
def fixPunct2 : Str → Str
  | [] => []
  | [c] => [c]
  | c :: d :: r =>
    if isSentPunct c && isAlphaAZ d then c :: ' ' :: d :: fixPunct2 r
    else c :: fixPunct2 (d :: r)

/-- Model of `clean_text` (text_chunking.py:50). -/
def cleanText (s : Str) : Str := pyStrip (fixPunct2 (fixPunct1 (collapseWs s)))

/-! ### Sentence splitting (text_chunking.py, lines 60-77)

`re.split(r'([.!?]+)\s+(?=[A-Z])', text)` with one capture group returns
the list `pre, punct, mid, punct, ..., post`; the separator's whitespace
is consumed and the capital (lookahead) is not.  Greediness is exact
here: `[.!?]+` must be the maximal punctuation run (a shorter run would
put a punctuation character where `\s+` is required) and `\s+` must be
the maximal whitespace run (a shorter run would put whitespace where the
lookahead requires `[A-Z]`).  A failed attempt at a punctuation run
cannot hide a later match inside that run or its trailing whitespace. -/

inductive SentMode
  | norm (acc : Str)
  | inPunct (acc pb : Str)
  | inWs (acc pb wb : Str)

def splitSentencesAux : SentMode → Str → List Str
  | .norm acc, [] => [acc.reverse]
  | .norm acc, c :: r =>
    if isSentPunct c then splitSentencesAux (.inPunct acc [c]) r
    else splitSentencesAux (.norm (c :: acc)) r
  | .inPunct acc pb, [] => [(pb ++ acc).reverse]
  | .inPunct acc pb, c :: r =>
    if isSentPunct c then splitSentencesAux (.inPunct acc (c :: pb)) r
    else if pyIsSpace c then splitSentencesAux (.inWs acc pb [c]) r
    else splitSentencesAux (.norm (c :: pb ++ acc)) r
  | .inWs acc pb wb, [] => [(wb ++ pb ++ acc).reverse]
  | .inWs acc pb wb, c :: r =>
    if pyIsSpace c then splitSentencesAux (.inWs acc pb (c :: wb)) r
    else if isUpperAZ c then
      acc.reverse :: pb.reverse :: splitSentencesAux (.norm [c]) r
    else if isSentPunct c then splitSentencesAux (.inPunct (wb ++ pb ++ acc) [c]) r
    else splitSentencesAux (.norm (c :: wb ++ pb ++ acc)) r

/-- Model of `re.split(r'([.!?]+)\s+(?=[A-Z])', text)`. -/
def splitSentencesRaw (s : Str) : List Str := splitSentencesAux (.norm []) s

/-- The rejoin loop of `chunk_by_sentences` (lines 67-73): pair each text
part with its captured punctuation. -/
def pairUpSentences : List Str → List Str
  | [] => []
  | [x] => [x]
  | x :: p :: rest => (x ++ p) :: pairUpSentences rest

/-- Lines 67-77: rejoined sentences, stripped, empties dropped. -/
def processedSentences (text : Str) : List Str :=
  ((pairUpSentences (splitSentencesRaw text)).map pyStrip).filter
    (fun s => !s.isEmpty)

/-! ### `split_long_sentence` (text_chunking.py, lines 252-283) -/

inductive PyErr
  | valueError
  | httpError
deriving DecidableEq

/-- Model of `re.split(r',\s+', s)` / `re.split(r';\s+', s)`: separator character
followed by at least one whitespace character (the whitespace run is
consumed greedily; separators are not captured). -/
inductive CswMode
  | norm (acc : Str)
  | peekSep (acc : Str)
  | inSep

def splitCharWsAux (sep : Char) : CswMode → Str → List Str
  | .norm acc, [] => [acc.reverse]
  | .norm acc, c :: r =>
    if c = sep then splitCharWsAux sep (.peekSep acc) r
    else splitCharWsAux sep (.norm (c :: acc)) r
  | .peekSep acc, [] => [(sep :: acc).reverse]
  | .peekSep acc, d :: r =>
    if pyIsSpace d then acc.reverse :: splitCharWsAux sep .inSep r
    else if d = sep then splitCharWsAux sep (.peekSep (sep :: acc)) r
    else splitCharWsAux sep (.norm (d :: sep :: acc)) r
  | .inSep, [] => [[]]
  | .inSep, c :: r =>
    if pyIsSpace c then splitCharWsAux sep .inSep r
    else if c = sep then splitCharWsAux sep (.peekSep []) r
    else splitCharWsAux sep (.norm [c]) r

def splitCharWs (sep : Char) (s : Str) : List Str :=
  splitCharWsAux sep (.norm []) s

/-- Model of `re.split(r'\s+W\s+', s)` for a literal word `W` (`and`, `but`,
`or`): whitespace run, the word, whitespace run.  Fuel-indexed (each
step consumes at least one character; the wrapper passes `length + 1`,
which always suffices). -/
inductive WswMode
  | norm (acc : Str)
  | sawWs (acc wsb : Str)
  | trail

def wswFlush : WswMode → Str → List Str
  | .norm acc, s => [acc.reverse ++ s]
  | .sawWs acc wsb, s => [(wsb ++ acc).reverse ++ s]
  | .trail, s => [s]

def splitWordWsAux (w : Str) : Nat → WswMode → Str → List Str
  | 0, m, s => wswFlush m s
  | _ + 1, .norm acc, [] => [acc.reverse]
  | f + 1, .norm acc, c :: r =>
    if pyIsSpace c then splitWordWsAux w f (.sawWs acc [c]) r
    else splitWordWsAux w f (.norm (c :: acc)) r
  | _ + 1, .sawWs acc wsb, [] => [(wsb ++ acc).reverse]
  | f + 1, .sawWs acc wsb, c :: r =>
    if pyIsSpace c then splitWordWsAux w f (.sawWs acc (c :: wsb)) r
    else if w.isPrefixOf (c :: r) then
      match (c :: r).drop w.length with
      | d :: r2 =>
        if pyIsSpace d then acc.reverse :: splitWordWsAux w f .trail r2
        else splitWordWsAux w f (.norm (c :: wsb ++ acc)) r
      | [] => splitWordWsAux w f (.norm (c :: wsb ++ acc)) r
    else splitWordWsAux w f (.norm (c :: wsb ++ acc)) r
  | _ + 1, .trail, [] => [[]]
  | f + 1, .trail, c :: r =>
    if pyIsSpace c then splitWordWsAux w f .trail r
    else splitWordWsAux w f (.norm [c]) r

def splitWordWs (w : Str) (s : Str) : List Str :=
  splitWordWsAux w (s.length + 1) (.norm []) s

/-- Model of `range(0, len(s), m)` slicing for `m ≥ 1` (the last-resort split). -/
def strideChunks (s : Str) (m : Nat) : List Str :=
  (List.range ((s.length + m - 1) / m)).map (fun k => pySlice s (k * m) (k * m + m))

/-- The inner rebuild loop of `split_long_sentence` (lines 263-273):
note the length test uses `current + part` while the join inserts
`", "`, exactly as the source does. -/
def rebuildParts (maxS : Int) (parts : List Str) : List Str :=
  let step := fun (st : List Str × Str) (part : Str) =>
    let (chunks, current) := st
    if ((current ++ part).length : Int) ≤ maxS then
      (chunks, if current.isEmpty then part else current ++ ',' :: ' ' :: part)
    else
      ((if current.isEmpty then chunks else chunks ++ [pyStrip current]), part)
  let (chunks, current) := parts.foldl step ([], [])
  if current.isEmpty then chunks else chunks ++ [pyStrip current]

/-- Lines 260-276: try each split pattern in order; accept the first
whose rebuilt chunks all fit. -/
def splitLongTryPats (maxS : Int) (fallback : Except PyErr (List Str)) :
    List (List Str) → Except PyErr (List Str)
  | [] => fallback
  | parts :: rest =>
    if parts.length > 1 then
      let chunks := rebuildParts maxS parts
      if chunks.all (fun c => (c.length : Int) ≤ maxS) then .ok chunks
      else splitLongTryPats maxS fallback rest
    else splitLongTryPats maxS fallback rest

/-- Model of `split_long_sentence` (lines 252-283).  The last resort
`range(0, len(sentence), max_size)` raises `ValueError` in Python when
`max_size = 0` and is empty when `max_size < 0`. -/
def splitLongSentence (s : Str) (maxS : Int) : Except PyErr (List Str) :=
  if (s.length : Int) ≤ maxS then .ok [s]
  else
    splitLongTryPats maxS
      (if maxS = 0 then .error .valueError
       else if maxS < 0 then .ok []
       else .ok (strideChunks s maxS.toNat))
      [splitCharWs ',' s, splitCharWs ';' s,
       splitWordWs (lit "and") s, splitWordWs (lit "but") s,
       splitWordWs (lit "or") s]

/-! ### `chunk_by_sentences` (text_chunking.py, lines 60-107) -/

/-- The accumulation loop (lines 79-102). -/
def sentAccum (cs : Int) : List Str → List Str → Str → Except PyErr (List Str × Str)
  | [], chunks, current => .ok (chunks, current)
  | s :: rest, chunks, current =>
    if s.isEmpty then sentAccum cs rest chunks current
    else
      let pot := if current.isEmpty then s else current ++ ' ' :: s
      if (pot.length : Int) ≤ cs then sentAccum cs rest chunks pot
      else
        let chunks' := if current.isEmpty then chunks else chunks ++ [pyStrip current]
        if (s.length : Int) > cs then
          match splitLongSentence s cs with
          | .error e => .error e
          | .ok subs => sentAccum cs rest (chunks' ++ subs.dropLast) (subs.getLastD [])
        else sentAccum cs rest chunks' s

def chunkBySentences (text : Str) (cs : Int) : Except PyErr (List Str) :=
  match sentAccum cs (processedSentences text) [] [] with
  | .error e => .error e
  | .ok (chunks, current) =>
    let final :=
      if current.isEmpty || (pyStrip current).isEmpty then chunks
      else chunks ++ [pyStrip current]
    .ok (final.filter (fun c => !(pyStrip c).isEmpty))

/-! ### `chunk_by_paragraphs` (text_chunking.py, lines 109-137)

`re.split(r'\n\s*\n', text)`: a newline, then the longest whitespace run
whose last newline closes the separator (backtracking of the greedy
`\s*`); whitespace after that last newline belongs to the next field. -/

inductive ParaMode
  | norm (acc : Str)
  | afterNl (acc whole post : Str) (matched : Bool)

def splitParasAux : ParaMode → Str → List Str
  | .norm acc, [] => [acc.reverse]
  | .norm acc, c :: r =>
    if c = '\n' then splitParasAux (.afterNl acc [] [] false) r
    else splitParasAux (.norm (c :: acc)) r
  | .afterNl acc whole post m, [] =>
    if m then [acc.reverse, post.reverse] else [(whole ++ '\n' :: acc).reverse]
  | .afterNl acc whole post m, c :: r =>
    if c = '\n' then splitParasAux (.afterNl acc (c :: whole) [] true) r
    else if pyIsSpace c then splitParasAux (.afterNl acc (c :: whole) (c :: post) m) r
    else if m then acc.reverse :: splitParasAux (.norm (c :: post)) r
    else splitParasAux (.norm (c :: whole ++ '\n' :: acc)) r

def splitParagraphs (s : Str) : List Str := splitParasAux (.norm []) s

/-- The paragraph accumulation loop (lines 115-135). -/
def paraAccum (cs : Int) : List Str → List Str → Str → Except PyErr (List Str × Str)
  | [], chunks, current => .ok (chunks, current)
  | para :: rest, chunks, current =>
    let p := pyStrip para
    if p.isEmpty then paraAccum cs rest chunks current
    else if ((current.length : Int) + p.length + 2) ≤ cs then
      paraAccum cs rest chunks (if current.isEmpty then p else current ++ '\n' :: '\n' :: p)
    else
      let chunks' := if current.isEmpty then chunks else chunks ++ [pyStrip current]
      if (p.length : Int) > cs then
        match chunkBySentences p cs with
        | .error e => .error e
        | .ok pcs => paraAccum cs rest (chunks' ++ pcs.dropLast) (pcs.getLastD [])
      else paraAccum cs rest chunks' p

def chunkByParagraphs (text : Str) (cs : Int) : Except PyErr (List Str) :=
  match paraAccum cs (splitParagraphs text) [] [] with
  | .error e => .error e
  | .ok (chunks, current) =>
    let final :=
      if current.isEmpty || (pyStrip current).isEmpty then chunks
      else chunks ++ [pyStrip current]
    .ok (final.filter (fun c => !(pyStrip c).isEmpty))

/-! ### `chunk_by_semantic_breaks` (text_chunking.py, lines 139-179) -/

/-- Length of the longest run satisfying `p`. -/
def countWhile (p : Char → Bool) : Str → Nat
  | [] => 0
  | c :: r => if p c then countWhile p r + 1 else 0

/-- Model of `Chapter\s+\d+` at the current position (used both with and without
the leading newline). -/
def mlChapterAt (r : Str) : Option Nat :=
  if (lit "Chapter").isPrefixOf r then
    let r1 := r.drop 7
    let w := countWhile pyIsSpace r1
    if w = 0 then none
    else
      let d := countWhile isDigit09 (r1.drop w)
      if d = 0 then none else some (7 + w + d)
  else none

/-- Model of `\nChapter\s+\d+`. -/
def mlChapterNl : Str → Option Nat
  | '\n' :: r => (mlChapterAt r).map (· + 1)
  | _ => none

/-- Model of `\n\s*\*\s*\*\s*\*` (a `\s*` before a literal `*` is exact as the
maximal whitespace run, since `*` is not whitespace). -/
def mlStars : Str → Option Nat
  | '\n' :: r =>
    let w1 := countWhile pyIsSpace r
    match r.drop w1 with
    | '*' :: r2 =>
      let w2 := countWhile pyIsSpace r2
      match r2.drop w2 with
      | '*' :: r4 =>
        let w3 := countWhile pyIsSpace r4
        match r4.drop w3 with
        | '*' :: _ => some (1 + w1 + 1 + w2 + 1 + w3 + 1)
        | _ => none
      | _ => none
    | _ => none
  | _ => none

/-- Model of `\n\s*---+`. -/
def mlDashes : Str → Option Nat
  | '\n' :: r =>
    let w := countWhile pyIsSpace r
    let d := countWhile (· = '-') (r.drop w)
    if d ≥ 3 then some (1 + w + d) else none
  | _ => none

/-- Model of `"\s*\n\s*"`: a quote, a whitespace run containing a newline, a
quote (greedy backtracking forces the whole run to be consumed and the
closing quote to follow it directly). -/
def mlQuoteNl : Str → Option Nat
  | '"' :: r =>
    let w := countWhile pyIsSpace r
    if (r.take w).contains '\n' then
      match r.drop w with
      | '"' :: _ => some (1 + w + 1)
      | _ => none
    else none
  | _ => none

/-- Model of `\n\s*\d+\.\s+`. -/
def mlNumList : Str → Option Nat
  | '\n' :: r =>
    let w := countWhile pyIsSpace r
    let r1 := r.drop w
    let d := countWhile isDigit09 r1
    if d = 0 then none
    else match r1.drop d with
      | '.' :: r3 =>
        let wq := countWhile pyIsSpace r3
        if wq = 0 then none else some (1 + w + d + 1 + wq)
      | _ => none
  | _ => none

def isIVX (c : Char) : Bool := c = 'I' || c = 'V' || c = 'X'

/-- Model of `\n\s*[IVX]+\.\s+`. -/
def mlRomanList : Str → Option Nat
  | '\n' :: r =>
    let w := countWhile pyIsSpace r
    let r1 := r.drop w
    let d := countWhile isIVX r1
    if d = 0 then none
    else match r1.drop d with
      | '.' :: r3 =>
        let wq := countWhile pyIsSpace r3
        if wq = 0 then none else some (1 + w + d + 1 + wq)
      | _ => none
  | _ => none

/-- Model of `re.finditer` collecting `match.start()`: leftmost, non-overlapping.
Every matcher above returns a positive length, so fuel `length + 1`
always suffices. -/
def scanStartsAux (ml : Str → Option Nat) : Nat → Nat → Str → List Nat
  | 0, _, _ => []
  | _ + 1, _, [] => []
  | f + 1, i, s@(_ :: t) =>
    match ml s with
    | some len => i :: scanStartsAux ml f (i + len) (s.drop len)
    | none => scanStartsAux ml f (i + 1) t

def scanStarts (ml : Str → Option Nat) (s : Str) : List Nat :=
  scanStartsAux ml (s.length + 1) 0 s

def semanticMatchers : List (Str → Option Nat) :=
  [mlChapterNl, mlStars, mlDashes, mlQuoteNl, mlNumList, mlRomanList]

/-- Insertion sort and adjacent dedup: `sorted(set(break_points))`. -/
def insertNat (x : Nat) : List Nat → List Nat
  | [] => [x]
  | y :: ys => if x ≤ y then x :: y :: ys else y :: insertNat x ys

def sortNat : List Nat → List Nat
  | [] => []
  | x :: xs => insertNat x (sortNat xs)

def dedupSorted : List Nat → List Nat
  | [] => []
  | [x] => [x]
  | x :: y :: r => if x = y then dedupSorted (y :: r) else x :: dedupSorted (y :: r)

/-- The segment loop of `chunk_by_semantic_breaks` (lines 166-177). -/
def semAccum (cs : Int) : List Str → List Str → Except PyErr (List Str)
  | [], chunks => .ok chunks
  | seg :: rest, chunks =>
    if seg.isEmpty then semAccum cs rest chunks
    else if (seg.length : Int) ≤ cs then semAccum cs rest (chunks ++ [seg])
    else match chunkBySentences seg cs with
      | .error e => .error e
      | .ok subs => semAccum cs rest (chunks ++ subs)

def chunkBySemantic (text : Str) (cs : Int) : Except PyErr (List Str) :=
  let bps := dedupSorted (sortNat
    (0 :: (semanticMatchers.foldr (fun ml acc => scanStarts ml text ++ acc) [text.length])))
  let segs := (bps.zip bps.tail).map (fun p => pyStrip (pySlice text p.1 p.2))
  match semAccum cs segs [] with
  | .error e => .error e
  | .ok chunks => .ok (chunks.filter (fun c => !(pyStrip c).isEmpty))

/-! ### `has_semantic_structure` (lines 236-250) -/

/-- Model of `re.search`: does the matcher fire at any position? -/
def anyPos (p : Str → Bool) : Str → Bool
  | [] => p []
  | s@(_ :: t) => p s || anyPos p t

/-- Model of `\n\s*[A-Z][A-Z\s]+\n` at the current position: after the first
capital, the maximal `[A-Z\s]` region must contain a newline at index
at least 1 (the `[A-Z\s]+` run needs one character before the closing
newline, and the closing newline is itself in the class, hence inside
the maximal region). -/
def mlCapsHeading (s : Str) : Bool :=
  match s with
  | '\n' :: r =>
    let w := countWhile pyIsSpace r
    match r.drop w with
    | c :: r2 =>
      if isUpperAZ c then
        let m := countWhile (fun d => isUpperAZ d || pyIsSpace d) r2
        ((r2.take m).drop 1).contains '\n'
      else false
    | [] => false
  | _ => false

def hasSemanticStructure (text : Str) : Bool :=
  let inds := [anyPos (fun s => (mlChapterAt s).isSome) text,
               anyPos (fun s => (mlNumList s).isSome) text,
               anyPos mlCapsHeading text,
               anyPos (fun s => (mlStars s).isSome) text]
  2 ≤ inds.countP (fun b => b)

/-! ### Results of strategies that may raise or not terminate -/

inductive PyRes (α : Type) where
  | val (a : α)
  | exn (e : PyErr)
  | timeout
deriving DecidableEq

def liftE : Except PyErr α → PyRes α
  | .ok a => .val a
  | .error e => .exn e

/-! ### `chunk_with_sliding_window` (lines 181-212)

`last_sentence_end > chunk_size * 0.7` is modelled as
`10 * last > 7 * cs` (exact 7/10 in place of the float 0.7). -/

def slidingLoop (text : Str) (cs overlap : Int) : Nat → Int → List Str → PyRes (List Str)
  | 0, _, _ => .timeout
  | f + 1, start, acc =>
    if start < (text.length : Int) then
      let endd := start + cs
      let chunk := pySliceInt text start endd
      let st :=
        if endd < (text.length : Int) then
          let last := max (rfindChar chunk '.') (max (rfindChar chunk '!') (rfindChar chunk '?'))
          if 10 * last > 7 * cs then (pySliceInt chunk 0 (last + 1), start + last + 1)
          else (chunk, endd)
        else (chunk, endd)
      let acc' := acc ++ [pyStrip st.1]
      if st.2 ≥ (text.length : Int) then .val acc'
      else slidingLoop text cs overlap f (st.2 - overlap) acc'
    else .val acc

def chunkSliding (fuel : Nat) (text : Str) (cs overlap : Int) : PyRes (List Str) :=
  if (text.length : Int) ≤ cs then .val [text]
  else match slidingLoop text cs overlap fuel 0 [] with
    | .val l => .val (l.filter (fun c => !(pyStrip c).isEmpty))
    | .exn e => .exn e
    | .timeout => .timeout

/-! ### `simple_character_chunk` (lines 321-350) -/

/-- The break characters `' \n\t.!?;,'`. -/
def breakChar (c : Char) : Bool :=
  c = ' ' || c = '\n' || c = '\t' || c = '.' || c = '!' || c = '?' || c = ';' || c = ','

/-- Model of `for i in range(end, max(start, end-100), -1)`: the first break
character scanning downward from `end`, else `end` itself. -/
def findBreakPoint (text : Str) (start endd : Int) : Int :=
  let lo := max start (endd - 100)
  let cnt := (endd - lo).toNat
  ((((List.range cnt).map (fun k => endd - k)).find?
      (fun i => breakChar (charAtInt text i))).map (· + 1)).getD endd

def simpleLoop (text : Str) (cs : Int) : Nat → Int → List Str → PyRes (List Str)
  | 0, _, _ => .timeout
  | f + 1, start, acc =>
    if start < (text.length : Int) then
      let endd := start + cs
      if endd ≥ (text.length : Int) then
        .val (acc ++ [pyStrip (pySliceInt text start (text.length : Int))])
      else
        let bp := findBreakPoint text start endd
        let chunk := pyStrip (pySliceInt text start bp)
        simpleLoop text cs f bp (if chunk.isEmpty then acc else acc ++ [chunk])
    else .val acc

def simpleCharChunk (fuel : Nat) (text : Str) (cs : Int) : PyRes (List Str) :=
  if (text.length : Int) ≤ cs then .val [text]
  else match simpleLoop text cs fuel 0 [] with
    | .val l => .val (l.filter (fun c => !(pyStrip c).isEmpty))
    | .exn e => .exn e
    | .timeout => .timeout

/-! ### `chunk_adaptive` (lines 214-234) -/

/-- Model of `re.split(r'[.!?]+', text)`: fields between maximal punctuation
runs.  `none` is the in-run mode. -/
def splitPunctAux : Option Str → Str → List Str
  | some acc, [] => [acc.reverse]
  | none, [] => [[]]
  | some acc, c :: r =>
    if isSentPunct c then acc.reverse :: splitPunctAux none r
    else splitPunctAux (some (c :: acc)) r
  | none, c :: r =>
    if isSentPunct c then splitPunctAux none r
    else splitPunctAux (some [c]) r

def splitPunctSegs (s : Str) : List Str := splitPunctAux (some []) s

/-- Model of `chunk_adaptive`: `avg_paragraph_length < chunk_size * 0.8` is
modelled as `5*len < 4*cs*max(pc,1)` and
`avg_sentence_length < chunk_size * 0.3` as `10*len < 3*cs*max(sc,1)`
(exact rationals in place of the floats). -/
def chunkAdaptive (fuel : Nat) (text : Str) (cs : Int) : PyRes (List Str) :=
  let pc := (splitParagraphs text).length
  let sc := (splitPunctSegs text).length
  let n : Int := text.length
  if pc > 3 ∧ 5 * n < 4 * cs * (max pc 1 : Nat) then liftE (chunkByParagraphs text cs)
  else if 10 * n < 3 * cs * (max sc 1 : Nat) then chunkSliding fuel text cs 50
  else if hasSemanticStructure text then liftE (chunkBySemantic text cs)
  else liftE (chunkBySentences text cs)

/-! ### `chunk_text` (lines 13-48) -/

inductive ChunkStrategy where
  | sentence
  | paragraph
  | semantic
  | sliding
  | adaptive
deriving DecidableEq

/-- The strategy dispatch inside the `try` of `chunk_text`
(lines 33-44). -/
def dispatchStrategy (fuel : Nat) (t : Str) (cs : Int) (strat : ChunkStrategy)
    (overlap : Int) : PyRes (List Str) :=
  match strat with
  | .sentence => liftE (chunkBySentences t cs)
  | .paragraph => liftE (chunkByParagraphs t cs)
  | .semantic => liftE (chunkBySemantic t cs)
  | .sliding => chunkSliding fuel t cs overlap
  | .adaptive => chunkAdaptive fuel t cs

/-- Model of `chunk_text`: empty or whitespace-only input yields `[]`; otherwise
the cleaned text is dispatched to the chosen strategy, and any exception
from the strategy is caught and answered by
`simple_character_chunk(text, chunk_size)` on the cleaned text. -/
def chunkText (fuel : Nat) (text : Str) (cs : Int) (strat : ChunkStrategy)
    (overlap : Int) : PyRes (List Str) :=
  if (pyStrip text).isEmpty then .val []
  else
    let t := cleanText text
    match dispatchStrategy fuel t cs strat overlap with
    | .val r => .val r
    | .exn _ => simpleCharChunk fuel t cs
    | .timeout => .timeout

/-! ### `detect_people_in_question` (ai_refactored.py, lines 41-93) -/

/-- The `known_people` gazetteer, in source (insertion) order. -/
def knownPeople : List (Str × List Str) :=
  [(lit "barack obama", [lit "barack obama", lit "obama"]),
   (lit "donald trump", [lit "donald trump", lit "trump"]),
   (lit "vladimir putin", [lit "vladimir putin", lit "putin"]),
   (lit "winston churchill", [lit "winston churchill", lit "churchill"]),
   (lit "napoleon bonaparte", [lit "napoleon", lit "bonaparte"]),
   (lit "adolf hitler", [lit "hitler", lit "adolf hitler"]),
   (lit "joseph stalin", [lit "stalin", lit "joseph stalin"]),
   (lit "abraham lincoln", [lit "lincoln", lit "abraham lincoln"]),
   (lit "george washington", [lit "washington", lit "george washington"]),
   (lit "franklin roosevelt", [lit "roosevelt", lit "franklin roosevelt", lit "fdr"]),
   (lit "john kennedy", [lit "kennedy", lit "john kennedy", lit "jfk"]),
   (lit "bill clinton", [lit "clinton", lit "bill clinton"]),
   (lit "joe biden", [lit "biden", lit "joe biden"]),
   (lit "george bush", [lit "bush", lit "george bush"]),
   (lit "nelson mandela", [lit "nelson mandela", lit "mandela"]),
   (lit "martin luther king", [lit "martin luther king", lit "mlk", lit "king"]),
   (lit "malcolm x", [lit "malcolm x", lit "malcolm"]),
   (lit "gandhi", [lit "gandhi", lit "mahatma gandhi"]),
   (lit "ante pavelić", [lit "ante pavelić", lit "pavelić", lit "pavelic"]),
   (lit "josip broz tito", [lit "tito", lit "josip broz", lit "broz"]),
   (lit "franjo tuđman", [lit "tuđman", lit "tudman", lit "franjo tuđman"]),
   (lit "stipe mesić", [lit "mesić", lit "mesic", lit "stipe mesić"]),
   (lit "zoran milanović", [lit "milanović", lit "milanovic", lit "zoran milanović"])]

def commonCapWords : List Str :=
  [lit "World War", lit "New York", lit "United States",
   lit "Roman Empire", lit "Soviet Union"]

/-- Model of `re.findall(r'\b[A-Z][a-z]+\s+[A-Z][a-z]+\b', question)`: at a word
boundary, a capital, a maximal lowercase run (at least one), a maximal
whitespace run (at least one), a capital, a maximal lowercase run, and
a trailing word boundary.  Greediness is exact: each class is disjoint
from the one that follows it, and a shorter lowercase run would end at
a lowercase letter (a word character), failing the boundary. -/
def capNameAt (prev : Option Char) (s : Str) : Option (Str × Str) :=
  match s with
  | c :: r =>
    if (match prev with | none => true | some p => !isWordChar p) && isUpperAZ c then
      let l1 := countWhile isLowerAZ r
      if l1 = 0 then none
      else
        let r1 := r.drop l1
        let w := countWhile pyIsSpace r1
        if w = 0 then none
        else
          match r1.drop w with
          | c2 :: r2 =>
            if isUpperAZ c2 then
              let l2 := countWhile isLowerAZ r2
              if l2 = 0 then none
              else
                let rest := r2.drop l2
                if match rest with | [] => true | d :: _ => !isWordChar d then
                  some (c :: r.take l1 ++ r1.take w ++ c2 :: r2.take l2, rest)
                else none
            else none
          | [] => none
    else none
  | [] => none

def findCapNamesAux : Nat → Option Char → Str → List Str
  | 0, _, _ => []
  | _ + 1, _, [] => []
  | f + 1, prev, s@(c :: t) =>
    match capNameAt prev s with
    | some (name, rest) => name :: findCapNamesAux f (some (name.getLastD 'x')) rest
    | none => findCapNamesAux f (some c) t

def findCapNames (s : Str) : List Str := findCapNamesAux (s.length + 1) none s

/-- Model of `detect_people_in_question`. -/
def detectPeople (question : Str) : List Str :=
  let ql := pyLower question
  let fromKnown := knownPeople.foldl
    (fun acc p => if p.2.any (fun v => strContains ql v) then acc ++ [p.1] else acc) []
  (findCapNames question).foldl
    (fun acc name =>
      let nl := pyLower name
      if acc.any (fun p => pyLower p = nl) then acc
      else if commonCapWords.any (fun cw => strContains name cw) then acc
      else acc ++ [nl])
    fromKnown

/-! ### `detect_historical_events_in_question` (lines 95-119) -/

def historicalEvents : List (Str × List Str) :=
  [(lit "domovinski rat", [lit "domovinski rat", lit "croatian war of independence", lit "homeland war"]),
   (lit "drugi svjetski rat", [lit "drugi svjetski rat", lit "world war ii", lit "ww2", lit "wwii"]),
   (lit "prvi svjetski rat", [lit "prvi svjetski rat", lit "world war i", lit "ww1", lit "wwi"]),
   (lit "jugoslavenski ratovi", [lit "jugoslavenski ratovi", lit "yugoslav wars", lit "balkan wars"]),
   (lit "ndh", [lit "ndh", lit "nezavisna država hrvatska", lit "independent state of croatia"]),
   (lit "raspad jugoslavije", [lit "raspad jugoslavije", lit "breakup of yugoslavia", lit "yugoslav dissolution"]),
   (lit "srebrenica", [lit "srebrenica", lit "genocide srebrenica"]),
   (lit "oluja", [lit "operacija oluja", lit "operation storm"]),
   (lit "bljesak", [lit "operacija bljesak", lit "operation flash"]),
   (lit "vukovar", [lit "vukovar", lit "battle of vukovar"]),
   (lit "dubrovnik", [lit "opsada dubrovnika", lit "siege of dubrovnik"])]

def detectEvents (question : Str) : List Str :=
  let ql := pyLower question
  historicalEvents.foldl
    (fun acc p => if p.2.any (fun v => strContains ql v) then acc ++ [p.1] else acc) []

/-! ### ChromaDB query results (chroma_db.py)

A Chroma query answer is a dict of parallel outer lists (one inner list
per query text).  Distance scores are floats in Python; only their
ordering matters to the sources, so they are modelled as `Option Int`
(`none` is Python's `None`).  Inner lists are assumed aligned
(well-formed collaborator responses, as Chroma produces); `getD` stands
in for Python's checked indexing. -/

/-- Chunk metadata as written by `chunk_book_text`. -/
structure Meta where
  bookId : Str
  title : Str
  chunkIndex : Int
  sourceType : Str
deriving DecidableEq

def defaultMeta : Meta := ⟨[], [], 0, []⟩

structure RawRes where
  documents : List (List Str)
  metadatas : List (List Meta)
  distances : List (List (Option Int))
deriving DecidableEq

/-- The `{"ids": [], "embeddings": [], "documents": [], "metadatas": [],
"distances": []}` dict returned on error. -/
def emptyRawRes : RawRes := ⟨[], [], []⟩

/-- One candidate hit of the multi-strategy merge. -/
abbrev Item := Str × Meta × Option Int

/-- The priority classes of `priority_score` (chroma_db.py:323-332). -/
def priorityClass (m : Meta) : Nat :=
  let b := pyLower m.bookId
  if strContains b (lit "dreams") && strContains b (lit "obama") then 0
  else if strContains b (lit "obama") then 1
  else 2

/-- Python's `key(a) < key(b)` on the `(class, distance)` pairs:
comparing `None` with a number (or with `None`) raises `TypeError`. -/
def cmpLtItem (a b : Item) : Except Unit Bool :=
  let pa := priorityClass a.2.1
  let pb := priorityClass b.2.1
  if pa ≠ pb then .ok (decide (pa < pb))
  else match a.2.2, b.2.2 with
    | some x, some y => .ok (decide (x < y))
    | _, _ => .error ()

/-- Stable insertion into a sorted suffix: the element being inserted
precedes later elements it does not compare greater than. -/
def insertItem (x : Item) : List Item → Except Unit (List Item)
  | [] => .ok [x]
  | y :: ys =>
    match cmpLtItem y x with
    | .error e => .error e
    | .ok true => (insertItem x ys).map (y :: ·)
    | .ok false => .ok (x :: y :: ys)

/-- Model of `all_items.sort(key=priority_score)`: a stable comparison sort whose
comparisons raise `TypeError` exactly when the keys are unorderable (for
a two-element list this performs the single comparison CPython does). -/
def pySortItems : List Item → Except Unit (List Item)
  | [] => .ok []
  | x :: xs =>
    match pySortItems xs with
    | .error e => .error e
    | .ok s => insertItem x s

/-! ### `query_with_multiple_strategies` (chroma_db.py, lines 245-354)

The collection is a read oracle `query : Str → Nat → RawRes`
(`collection.query(query_texts=[q], n_results=n, ...)`). -/

def churchTerms : List Str :=
  [lit "seven-thirty", lit "7:30", lit "church service",
   lit "sunday morning", lit "arrived at church"]

def obamaTerms : List Str :=
  [lit "I arrived", lit "we went to church", lit "sunday service",
   lit "church attendance"]

def personalTerms : List Str := [lit "I went", lit "I arrived", lit "we arrived"]

/-- Lines 266-271: probe phrases chosen from the question text. -/
def keyTermsFor (q : Str) : List Str :=
  let ql := pyLower q
  (if strContains ql (lit "sati") || strContains ql (lit "time") then churchTerms else [])
    ++ (if strContains ql (lit "barack") && strContains ql (lit "obama") then obamaTerms else [])

/-- Append one probe query's hits to the three parallel candidate lists
(lines 277-302): skipped when the probe returned no documents. -/
def extendCombined (res : RawRes) :
    List Str × List Meta × List (Option Int) → List Str × List Meta × List (Option Int) :=
  fun acc =>
    if res.documents ≠ [] ∧ res.documents.headD [] ≠ [] then
      (acc.1 ++ res.documents.headD [], acc.2.1 ++ res.metadatas.headD [],
       acc.2.2 ++ res.distances.headD [])
    else acc

/-- The full candidate pool: base query hits then key-term then
personal-narrative probe hits, zipped into items (`zip` truncates to the
shortest list, as Python's does). -/
def mtsItems (query : Str → Nat → RawRes) (q : Str) (n : Nat) : List Item :=
  let r1 := query q n
  let base : List Str × List Meta × List (Option Int) :=
    (r1.documents.headD [], r1.metadatas.headD [], r1.distances.headD [])
  let withKey := ((keyTermsFor q).take 5).foldl
    (fun acc term => extendCombined (query term 5) acc) base
  let allL := (personalTerms.take 3).foldl
    (fun acc term => extendCombined (query term 3) acc) withKey
  (allL.1.zip (allL.2.1.zip allL.2.2)).map (fun p => (p.1, p.2.1, p.2.2))

/-- The dedup-and-cap loop (lines 315-341): a text is added only if not
seen and the output holds fewer than `n_results * 3` entries. -/
def dedupState := List Str × (List Str × List Meta × List (Option Int))

def dedupStep (n : Nat) (st : dedupState) (it : Item) : dedupState :=
  if !st.1.contains it.1 ∧ st.2.1.length < n * 3 then
    (it.1 :: st.1, (st.2.1 ++ [it.1], st.2.2.1 ++ [it.2.1], st.2.2.2 ++ [it.2.2]))
  else st

def dedupLoop (n : Nat) (items : List Item) : List Str × List Meta × List (Option Int) :=
  (items.foldl (dedupStep n) ([], ([], [], []))).2

/-- Model of `query_with_multiple_strategies`: the catch-all `except` turns any
internal error (here: the sort's `TypeError`) into the empty result
dict. -/
def queryMultipleStrategies (query : Str → Nat → RawRes) (q : Str) (n : Nat) : RawRes :=
  match pySortItems (mtsItems query q n) with
  | .error _ => emptyRawRes
  | .ok sorted =>
    let fin := dedupLoop n sorted
    ⟨[fin.1], [fin.2.1], [fin.2.2]⟩

/-! ### `process_query_results` (ai_refactored.py, lines 475-576) -/

/-- A retrieved passage `{"content", "metadata", "score"}`. -/
structure RDoc where
  content : Str
  meta : Meta
  score : Option Int
deriving DecidableEq

/-- Lines 490-509: collect hits, skipping empty or short chunk texts. -/
def collectAllDocs (docs0 : List Str) (metas0 : List Meta)
    (dists0 : List (Option Int)) (useD : Bool) : List RDoc :=
  (List.range docs0.length).foldl
    (fun acc i =>
      let dc := docs0.getD i []
      let ds := if useD then dists0.getD i none else none
      if dc.isEmpty || (pyStrip dc).length < 10 then acc
      else acc ++ [⟨dc, metas0.getD i defaultMeta, ds⟩])
    []

/-- Lines 521-534: is this hit's book relevant to a detected person? -/
def docRelevantToPeople (people : List Str) (d : RDoc) : Bool :=
  people.any (fun person =>
    let bl := pyLower d.meta.bookId
    let tl := pyLower d.meta.title
    let parts := pySplitWs person
    strContains bl person || strContains tl person ||
      parts.any (fun part => part.length > 3 && strContains bl part) ||
      parts.any (fun part => part.length > 3 && strContains tl part) ||
      (parts.length ≥ 2 &&
        (parts.all (fun part => strContains bl part) ||
         parts.all (fun part => strContains tl part))))

/-- The event-keyword table local to `process_query_results`
(lines 539-544). -/
def pqrEventKeywords : List (Str × List Str) :=
  [(lit "domovinski rat",
    [lit "domovinski", lit "homeland", lit "war", lit "independence",
     lit "croatia", lit "hrvatski", lit "agresija", lit "jna"]),
   (lit "ndh",
    [lit "ndh", lit "nezavisna", lit "država", lit "hrvatska",
     lit "ustaše", lit "pavelić"]),
   (lit "drugi svjetski rat",
    [lit "world war", lit "wwii", lit "ww2", lit "nazi", lit "hitler"]),
   (lit "jugoslavenski ratovi",
    [lit "yugoslav", lit "balkan", lit "bosnia", lit "serbia"])]

/-- Lines 538-551. -/
def docRelevantToEvents (events : List Str) (d : RDoc) : Bool :=
  events.any (fun ev =>
    match pqrEventKeywords.lookup ev with
    | some kws => kws.any (fun k => strContains (pyLower d.meta.bookId) k)
    | none => false)

/-- Model of `process_query_results(results, question)`. -/
def processQueryResults (results : RawRes) (question : Str) : List RDoc :=
  if results.documents = [] ∨ results.documents.headD [] = [] then []
  else
    let people := detectPeople question
    let events := detectEvents question
    let docs0 := results.documents.headD []
    let metas0 := results.metadatas.headD []
    let dists0 := results.distances.headD []
    let useD := results.distances ≠ [] ∧ dists0 ≠ []
    let allDocs := collectAllDocs docs0 metas0 dists0 useD
    let relevant := allDocs.filter (fun d =>
      docRelevantToPeople people d ||
        (!docRelevantToPeople people d && !events.isEmpty && docRelevantToEvents events d))
    let other := allDocs.filter (fun d =>
      !(docRelevantToPeople people d ||
        (!docRelevantToPeople people d && !events.isEmpty && docRelevantToEvents events d)))
    let fin := relevant.take 10
    let fin2 := if fin.length < 5 then fin ++ other.take (5 - fin.length) else fin
    fin2.take 5

/-! ### `query_relevant_chunks` (ai_refactored.py, lines 454-473) -/

def detailKeywords : List Str :=
  [lit "sati", lit "time", lit "kada", lit "when", lit "kako",
   lit "how", lit "što", lit "what", lit "gdje", lit "where"]

/-- Model of `query_relevant_chunks`: the store is the read oracle `query`
(`query_similar_documents` is a thin wrapper over `collection.query`,
whose internal `try` never fires for a pure oracle). -/
def queryRelevantChunks (query : Str → Nat → RawRes) (q : Str) : List RDoc :=
  let detailed := detailKeywords.any (fun k => strContains (pyLower q) k)
  let results := if detailed then queryMultipleStrategies query q 30 else query q 20
  processQueryResults results q

/-! ### Local books (local_books.py collaborators, as oracles) -/

/-- A record returned by `scan_local_books`. -/
structure Book where
  identifier : Str
  title : Str
  creator : Str
  description : Str
deriving DecidableEq

/-- The collaborators consulted by the fallback path.  `scanLocalBooks`
models `scan_local_books()` (which may raise); `processLocalBooks`
models `process_local_books_for_chromadb()` returning an
identifier-to-text dict; `deleteBookChunksE` models
`delete_book_chunks`; `addDocuments` models the store's batch write
performed by `add_documents_with_embeddings`; `query` models
`collection.query`. -/
structure RetEnv where
  query : Str → Nat → RawRes
  scanLocalBooks : Except PyErr (List Book)
  processLocalBooks : List (Str × Str)
  deleteBookChunksE : Str → Except PyErr Nat
  addDocuments : List Str → List Meta → List Str → Except PyErr Unit

/-- Model of `get_local_books_not_in_db` (lines 184-200): scan errors are caught
and give `[]`. -/
def getLocalBooksNotInDb (env : RetEnv) (existing : List Str) : List Book :=
  match env.scanLocalBooks with
  | .error _ => []
  | .ok books => books.filter (fun b => !existing.contains b.identifier)

/-- Model of `find_books_for_people` (lines 121-145). -/
def findBooksForPeople (books : List Book) (people : List Str) : List Book :=
  books.foldl
    (fun acc b =>
      let tl := pyLower b.title
      let au := pyLower b.creator
      let dl := pyLower b.description
      let hit := people.any (fun person =>
        strContains tl person || strContains au person || strContains dl person ||
          (pySplitWs person).any (fun part => part.length > 3 && strContains tl part))
      if hit && !acc.contains b then acc ++ [b] else acc)
    []

/-- The event-keyword table of `find_books_for_events` (lines 152-164). -/
def fbfeEventKeywords : List (Str × List Str) :=
  [(lit "domovinski rat",
    [lit "domovinski", lit "homeland", lit "war", lit "independence",
     lit "croatia", lit "tuđman", lit "vukovar", lit "dubrovnik"]),
   (lit "drugi svjetski rat",
    [lit "world war", lit "wwii", lit "ww2", lit "nazi", lit "hitler", lit "holocaust"]),
   (lit "prvi svjetski rat",
    [lit "world war", lit "wwi", lit "ww1", lit "great war"]),
   (lit "jugoslavenski ratovi",
    [lit "yugoslav", lit "balkan", lit "bosnia", lit "serbia", lit "kosovo"]),
   (lit "ndh",
    [lit "ndh", lit "nezavisna", lit "država", lit "hrvatska", lit "ustaše", lit "pavelić"]),
   (lit "raspad jugoslavije",
    [lit "yugoslavia", lit "breakup", lit "dissolution", lit "tito"]),
   (lit "srebrenica", [lit "srebrenica", lit "genocide", lit "bosnia"]),
   (lit "oluja", [lit "storm", lit "oluja", lit "krajina"]),
   (lit "bljesak", [lit "flash", lit "bljesak", lit "western slavonia"]),
   (lit "vukovar", [lit "vukovar", lit "battle"]),
   (lit "dubrovnik", [lit "dubrovnik", lit "siege"])]

/-- Model of `find_books_for_events` (lines 147-182). -/
def findBooksForEvents (books : List Book) (events : List Str) : List Book :=
  books.foldl
    (fun acc b =>
      let combined := pyLower b.title ++ ' ' :: pyLower b.creator ++ ' ' :: pyLower b.description
      let hit := events.any (fun ev =>
        match fbfeEventKeywords.lookup ev with
        | some kws => kws.any (fun k => strContains combined k)
        | none => false)
      if hit && !acc.contains b then acc ++ [b] else acc)
    []

/-- Dedup by identifier, keeping first occurrences (the
`seen_ids` loops). -/
def dedupBooks (books : List Book) : List Book :=
  (books.foldl
    (fun st b =>
      if st.2.contains b.identifier then st
      else (st.1 ++ [b], b.identifier :: st.2))
    ([], [])).1

/-! ### `chunk_book_text` (ai_refactored.py, lines 392-436) -/

/-- Model of `get_optimal_chunk_size(text, max_chunk_size=800)` with no target
chunk count (text_chunking.py, lines 304-319). -/
def getOptimalChunkSize (text : Str) (maxCS : Int) : Int :=
  let n := text.length
  if n < 2000 then min 500 ((n : Int) / 2)
  else if n < 10000 then 800
  else maxCS

/-- Model of `f"{book_id}_fulltext_chunk_{i}"`. -/
def chunkIdOf (bookId : Str) (i : Nat) : Str :=
  bookId ++ lit "_fulltext_chunk_" ++ (Nat.repr i).data

/-- The strategy choice of `chunk_book_text` (lines 397-403). -/
def strategyForBook (title : Str) (textLen : Nat) : ChunkStrategy :=
  if strContains (pyLower title) (lit "biography") ||
     strContains (pyLower title) (lit "memoir") then .adaptive
  else if textLen > 50000 then .paragraph
  else .sentence

/-- Model of `chunk_book_text(book_id, book_title, full_text)`: returns the
chunk texts, their metadata and the deterministically derived ids. -/
def chunkBookText (fuel : Nat) (bookId title text : Str) :
    PyRes (List Str × List Meta × List Str) :=
  let cs := getOptimalChunkSize text 800
  let strat := strategyForBook title text.length
  match chunkText fuel text cs strat 50 with
  | .exn e => .exn e
  | .timeout => .timeout
  | .val [] => .val ([], [], [])
  | .val chunks =>
    .val (chunks,
      (List.range chunks.length).map (fun i => ⟨bookId, title, (i : Int), lit "full_text"⟩),
      (List.range chunks.length).map (chunkIdOf bookId))

/-! ### `process_and_add_local_books` (ai_refactored.py, lines 711-738)

`add_chunks_to_chromadb` (lines 438-452) raises `HTTPException` when the
store write fails. -/

def collectLocalChunks (fuel : Nat) (texts : List (Str × Str)) :
    List Book → List Str × List Meta × List Str → PyRes (List Str × List Meta × List Str)
  | [], acc => .val acc
  | b :: rest, acc =>
    let t := (texts.lookup b.identifier).getD []
    if t.isEmpty || (pyStrip t).length < 50 then collectLocalChunks fuel texts rest acc
    else
      match chunkBookText fuel b.identifier b.title t with
      | .exn e => .exn e
      | .timeout => .timeout
      | .val (cs, ms, ids) =>
        collectLocalChunks fuel texts rest
          (acc.1 ++ cs,
           acc.2.1 ++ ms.map (fun m => { m with sourceType := lit "local_file" }),
           acc.2.2 ++ ids)

def processAndAddLocalBooks (env : RetEnv) (fuel : Nat) (books : List Book)
    (texts : List (Str × Str)) : PyRes Unit :=
  match collectLocalChunks fuel texts books ([], [], []) with
  | .exn e => .exn e
  | .timeout => .timeout
  | .val (cs, ms, ids) =>
    if cs.isEmpty then .val ()
    else match env.addDocuments cs ms ids with
      | .ok _ => .val ()
      | .error _ => .exn .httpError

/-! ### `handle_local_books_fallback` (ai_refactored.py, lines 578-709) -/

/-- Lines 585-600: does some retrieved document carry substantial
content for a detected person? -/
def hasGoodContentForPeople (people : List Str) (docs : List RDoc) : Bool :=
  docs.any (fun doc =>
    people.any (fun person =>
      let parts := pySplitWs person
      let bl := pyLower doc.meta.bookId
      let cl := pyLower doc.content
      (parts.any (fun part => part.length > 3 && strContains bl part)) &&
        (strContains cl person ||
          parts.any (fun part => part.length > 3 && strContains cl part)) &&
        doc.content.length > 50))

/-- Lines 602-611. -/
def needFallback (people events : List Str) (docs : List RDoc) : Bool :=
  docs.length < 3 ||
    (!people.isEmpty && !hasGoodContentForPeople people docs) ||
    (!events.isEmpty && !docs.any (fun doc =>
      events.any (fun ev =>
        (pySplitWs ev).any (fun w => strContains (pyLower doc.meta.bookId) w))))

/-- Lines 626-635: existing book ids whose name matches a detected
person (candidates for reprocessing). -/
def booksToReprocess (people : List Str) (good : Bool) (existing : List Str) : List Str :=
  if !people.isEmpty && !good then
    people.foldl
      (fun acc person =>
        acc ++ existing.filter (fun bid =>
          (pySplitWs person).any (fun part =>
            part.length > 3 && strContains (pyLower bid) part)))
      []
  else []

/-- The reprocessing loop (lines 640-662): for the first scanned local
book that is marked for reprocessing and has extractable text, delete
its chunks (errors in the delete are caught locally), re-add it, query
again and return the extended document list. -/
def reprocessLoop (env : RetEnv) (fuel : Nat) (q : Str) (docs : List RDoc)
    (btr : List Str) : List Book → PyRes (Option (List RDoc))
  | [] => .val none
  | b :: rest =>
    if btr.contains b.identifier then
      -- delete_book_chunks in its own try/except: the result is unused
      let texts := env.processLocalBooks
      if (texts.lookup b.identifier).isSome then
        match processAndAddLocalBooks env fuel [b] texts with
        | .exn e => .exn e
        | .timeout => .timeout
        | .val _ =>
          let res := env.query q 10
          .val (some (docs ++ processQueryResults res q))
      else reprocessLoop env fuel q docs btr rest
    else reprocessLoop env fuel q docs btr rest

/-- Lines 664-704: the regular fallback after (or instead of)
reprocessing. -/
def regularFallback (env : RetEnv) (fuel : Nat) (q : Str) (docs : List RDoc)
    (people events : List Str) (existing : List Str) : PyRes (List RDoc) :=
  let lbooks := getLocalBooksNotInDb env existing
  if lbooks.isEmpty then .val docs
  else
    let relevant :=
      (if !people.isEmpty then findBooksForPeople lbooks people else []) ++
        (if !events.isEmpty then findBooksForEvents lbooks events else [])
    let lbooks' := if !relevant.isEmpty then dedupBooks relevant else lbooks
    let texts := env.processLocalBooks
    if !texts.isEmpty then
      match processAndAddLocalBooks env fuel lbooks' texts with
      | .exn e => .exn e
      | .timeout => .timeout
      | .val _ =>
        let res := env.query q 10
        .val (docs ++ processQueryResults res q)
    else .val docs

/-- The body of the `try` in `handle_local_books_fallback`
(lines 623-704). -/
def hlbfTry (env : RetEnv) (fuel : Nat) (q : Str) (docs : List RDoc)
    (people events : List Str) (existing : List Str) : PyRes (List RDoc) :=
  let btr := booksToReprocess people (hasGoodContentForPeople people docs) existing
  if !btr.isEmpty then
    match env.scanLocalBooks with
    | .error e => .exn e
    | .ok localBooks =>
      match reprocessLoop env fuel q docs btr localBooks with
      | .exn e => .exn e
      | .timeout => .timeout
      | .val (some out) => .val out
      | .val none => regularFallback env fuel q docs people events existing
  else regularFallback env fuel q docs people events existing

/-- Model of `handle_local_books_fallback(question, retrieved_documents,
existing_book_ids)`: the outer `except Exception` returns the document
list unchanged. -/
def handleLocalBooksFallback (env : RetEnv) (fuel : Nat) (q : Str)
    (docs : List RDoc) (existing : List Str) : PyRes (List RDoc) :=
  let people := detectPeople q
  let events := detectEvents q
  if !needFallback people events docs then .val docs
  else
    match hlbfTry env fuel q docs people events existing with
    | .val out => .val out
    | .exn _ => .val docs
    | .timeout => .timeout

/-- Steps 6 and 7 of `ai_generate` (ai_refactored.py, lines 920-926):
the retrieved-passage list handed to answer synthesis. -/
def pipelineRetrieve (env : RetEnv) (fuel : Nat) (q : Str) (existing : List Str) :
    PyRes (List RDoc) :=
  handleLocalBooksFallback env fuel q (queryRelevantChunks env.query q) existing

/-! ### The persisted chunk store

`collection.upsert(documents, metadatas, ids)` "will add if not exists,
update if exists" (chroma_db.py:178): the store is a keyed sequence and
an upsert replaces the entry with the same id in place, else appends.
`collection.count()` is the number of stored entries. -/

/-- One stored chunk: `(chunk_id, text, metadata)`. -/
abbrev Entry := Str × Str × Meta

abbrev Store := List Entry

def upsertOne (s : Store) (e : Entry) : Store :=
  if s.any (fun x => x.1 = e.1) then s.map (fun x => if x.1 = e.1 then e else x)
  else s ++ [e]

/-- Upserting a batch in order.  `add_documents_with_embeddings` splits
the input into batches of 5000 preserving order, so the store effect of
a successful run is this fold over all entries. -/
def storeUpsert (s : Store) (es : List Entry) : Store := es.foldl upsertOne s

/-- The entries written for one document: ids zipped with texts and
metadata in index order. -/
def mkEntries (chunks : List Str) (metas : List Meta) (ids : List Str) : List Entry :=
  (ids.zip (chunks.zip metas)).map (fun p => (p.1, p.2.1, p.2.2))

/-! ### Modelled from the spec: `delete_book_chunks`

The repository imports `delete_book_chunks` from `app.core.chroma_db`
(`app/api/ai_refactored.py:23` and `app/api/books.py:162`), but the
function's definition is not present under src/.  Per the spec:
`delete_document(document_identifier) -> count of chunks removed`, a
cascading delete of all chunks whose `document_identifier` matches. -/
def deleteBookChunks : Store → Str → Store × Nat
  | [], _ => ([], 0)
  | e :: rest, d =>
    let p := deleteBookChunks rest d
    if e.2.2.bookId = d then (p.1, p.2 + 1) else (e :: p.1, p.2)

/-! ### `add_documents_with_embeddings` (chroma_db.py, lines 144-207)

The store's batch write is the oracle `upsert`; a rejected write is an
`Except.error`.  The Python function wraps the whole batching loop in
`try: ... except Exception as e: print(...)` and returns normally in
both cases. -/

structure IndexEnv where
  upsert : List Str → List Meta → List Str → Except PyErr Unit

/-- Model of `BATCH_SIZE = 5000` slices of the three parallel lists. -/
def batchCount (n : Nat) : Nat := (n + 5000 - 1) / 5000

/-- The batching loop (lines 170-184): stops at the first rejected
batch (the exception aborts the loop). -/
def runBatches (env : IndexEnv) (docs : List Str) (metas : List Meta)
    (ids : List Str) : List Nat → Except PyErr Unit
  | [] => .ok ()
  | i :: rest =>
    match env.upsert ((docs.drop (i * 5000)).take 5000)
        ((metas.drop (i * 5000)).take 5000) ((ids.drop (i * 5000)).take 5000) with
    | .error e => .error e
    | .ok _ => runBatches env docs metas ids rest

/-- Model of `add_documents_with_embeddings(docs, metadatas, ids)`: the
catch-all `except` swallows any store rejection, so the call always
returns normally. -/
def addDocumentsWithEmbeddings (env : IndexEnv) (docs : List Str)
    (metas : List Meta) (ids : List Str) : Except PyErr Unit :=
  match runBatches env docs metas ids (List.range (batchCount docs.length)) with
  | .ok _ => .ok ()
  | .error _ => .ok ()

/-- The indexing step of the callers (`ai.py:265-279` and
`add_chunks_to_chromadb`, ai_refactored.py:438-452): call
`add_documents_with_embeddings` and raise
`HTTPException(500, "Database indexing failed.")` if it raises. -/
def aiIndexingStep (env : IndexEnv) (docs : List Str) (metas : List Meta)
    (ids : List Str) : Except PyErr Unit :=
  match addDocumentsWithEmbeddings env docs metas ids with
  | .ok _ => .ok ()
  | .error _ => .error .httpError

def storeKeys (s : Store) : List Str := s.map (·.1)

/-- A string "has content" when it contains a non-whitespace character. -/
def hasNonWs (s : Str) : Prop := ∃ c ∈ s, pyIsSpace c = false

/-- The invariant of the dedup loop: the output documents are distinct
and coincide (as a set) with the seen-set. -/
def dedupInv (st : dedupState) : Prop :=
  st.2.1.Nodup ∧ ∀ d, d ∈ st.1 ↔ d ∈ st.2.1

/-- A metadata record outside every priority class of interest. -/
def metaZ : Meta := ⟨lit "zz", lit "zz", 0, lit "x"⟩

/-- A store in which the base query and the probe query "I arrived"
both return the text `TT` (with different distances), and the probe
"I went" returns three better-ranked texts. -/
def envC4query : Str → Nat → RawRes := fun qq _ =>
  if qq = lit "qq" then ⟨[[lit "TT"]], [[metaZ]], [[some 5]]⟩
  else if qq = lit "I went" then
    ⟨[[lit "XX", lit "YY", lit "ZZ"]], [[metaZ, metaZ, metaZ]],
     [[some 1, some 2, some 3]]⟩
  else if qq = lit "I arrived" then ⟨[[lit "TT"]], [[metaZ]], [[some 6]]⟩
  else emptyRawRes

/-- A store answering only the base query, with a single hit. -/
def envWquery : Str → Nat → RawRes := fun qq _ =>
  if qq = lit "qw" then ⟨[[lit "TW"]], [[metaZ]], [[some 1]]⟩ else emptyRawRes

/-- A store whose base query returns one hit with a `None` distance and
one with a numeric distance, in the same priority class. -/
def envC8query : Str → Nat → RawRes := fun qq _ =>
  if qq = lit "q8" then
    ⟨[[lit "AA", lit "BB"]], [[metaZ, metaZ]], [[none, some 1]]⟩
  else emptyRawRes

/-- Metadata of a generically indexed book unrelated to any detected
entity. -/
def metaX : Meta := ⟨lit "xbook", lit "xt", 0, lit "x"⟩

/-- A store answer with five substantial chunks from that book. -/
def qres5 : RawRes :=
  ⟨[[lit "abcdefghijkl", lit "abcdefghijkl", lit "abcdefghijkl",
     lit "abcdefghijkl", lit "abcdefghijkl"]],
   [[metaX, metaX, metaX, metaX, metaX]],
   [[some 1, some 2, some 3, some 4, some 5]]⟩

/-- An environment in which the question detects a person, the initial
five hits carry no content about them (forcing the fallback), one
already-indexed book id matches the person (forcing the reprocessing
branch), and the re-query returns the same five hits. -/
def envC5 : RetEnv := {
  query := fun qq _ => if qq = lit "Who was Napoleon?" then qres5 else emptyRawRes,
  scanLocalBooks := .ok [⟨lit "local_napoleon_bio", lit "Xtitle", lit "", lit ""⟩],
  processLocalBooks := [(lit "local_napoleon_bio", lit "x")],
  deleteBookChunksE := fun _ => .ok 0,
  addDocuments := fun _ _ _ => .ok () }

/-- The hit the pipeline builds from one of those chunks. -/
def rdocX (d : Int) : RDoc := ⟨lit "abcdefghijkl", metaX, some d⟩

/-! ## Claims -/

/-- C9: Person detection is deterministic with these exact values: on
"Who was Napoleon?" it returns exactly `["napoleon bonaparte"]`, and on
"Random unrelated text" it returns the empty list. -/
theorem detectPeople_deterministic_values :
    detectPeople (lit "Who was Napoleon?") = [lit "napoleon bonaparte"] ∧
    detectPeople (lit "Random unrelated text") = [] := by
  exact ⟨by decide, by decide⟩

/-- C6: the per-document delete removes exactly the chunks whose
document identifier matches (the others survive, in order) and returns
the count of chunks removed.  (`delete_book_chunks` is modelled from
the spec; its definition is not under src/.) -/
theorem deleteBookChunks_spec (s : Store) (d : Str) :
    (deleteBookChunks s d).1 = s.filter (fun e => e.2.2.bookId ≠ d) ∧
    (deleteBookChunks s d).2 = (s.filter (fun e => e.2.2.bookId = d)).length ∧
    (deleteBookChunks s d).1.length + (deleteBookChunks s d).2 = s.length := by
  induction s with
  | nil => simp [deleteBookChunks]
  | cons e rest ih =>
    have h3 := ih.2.2
    by_cases h : e.2.2.bookId = d <;>
      simp [deleteBookChunks, h, ih.1, ih.2.1, List.filter] <;>
      simp [ih.1, ih.2.1] at h3 <;> omega

/-- C7: the indexing operation does NOT surface a store rejection: the
catch-all `except` in `add_documents_with_embeddings` swallows it, so
the call (and the caller's `raise HTTPException` guard around it)
always completes as success — here instantiated at a store that rejects
every batch write. -/
theorem addDocuments_swallows_rejection :
    (∀ (env : IndexEnv) (docs : List Str) (metas : List Meta) (ids : List Str),
      addDocumentsWithEmbeddings env docs metas ids = .ok () ∧
      aiIndexingStep env docs metas ids = .ok ()) ∧
    addDocumentsWithEmbeddings ⟨fun _ _ _ => .error .valueError⟩
      [lit "some chunk text"] [defaultMeta] [lit "book_fulltext_chunk_0"] = .ok () := by
  refine ⟨fun env docs metas ids => ?_, rfl⟩
  have h1 : addDocumentsWithEmbeddings env docs metas ids = .ok () := by
    unfold addDocumentsWithEmbeddings
    cases runBatches env docs metas ids (List.range (batchCount docs.length)) <;> rfl
  exact ⟨h1, by unfold aiIndexingStep; rw [h1]⟩

/-! ### Store lemmas for idempotent upsert -/

theorem keys_upsertOne_of_key {s : Store} {e : Entry} (h : e.1 ∈ storeKeys s) :
    storeKeys (upsertOne s e) = storeKeys s ∧ (upsertOne s e).length = s.length := by
  have hany : s.any (fun x => x.1 = e.1) = true := by
    rcases List.mem_map.1 h with ⟨x, hx, hx1⟩
    exact List.any_eq_true.2 ⟨x, hx, by simp [hx1]⟩
  constructor
  · unfold upsertOne storeKeys
    rw [if_pos hany, List.map_map]
    refine List.map_congr_left (fun a _ => ?_)
    by_cases hae : a.1 = e.1 <;> simp [hae]
  · unfold upsertOne
    rw [if_pos hany]
    exact List.length_map _ _

theorem keys_subset_upsertOne (s : Store) (e : Entry) :
    storeKeys s ⊆ storeKeys (upsertOne s e) := by
  unfold upsertOne storeKeys
  split
  · rw [List.map_map]
    intro k hk
    rcases List.mem_map.1 hk with ⟨x, hx, hx1⟩
    refine List.mem_map.2 ⟨x, hx, ?_⟩
    show (if x.1 = e.1 then e else x).1 = k
    by_cases hae : x.1 = e.1
    · rw [if_pos hae, ← hx1, hae]
    · rw [if_neg hae, hx1]
  · intro k hk
    simp only [List.map_append]
    exact List.mem_append_left _ hk

theorem key_mem_upsertOne (s : Store) (e : Entry) :
    e.1 ∈ storeKeys (upsertOne s e) := by
  by_cases hany : s.any (fun x => x.1 = e.1) = true
  · rcases List.any_eq_true.1 hany with ⟨x, hx, hx1⟩
    have hx1' : x.1 = e.1 := of_decide_eq_true hx1
    unfold upsertOne storeKeys
    rw [if_pos hany, List.map_map]
    refine List.mem_map.2 ⟨x, hx, ?_⟩
    show (if x.1 = e.1 then e else x).1 = e.1
    rw [if_pos hx1']
  · unfold upsertOne storeKeys
    rw [if_neg hany, List.map_append]
    exact List.mem_append_right _ (List.mem_map.2 ⟨e, List.mem_singleton.2 rfl, rfl⟩)

theorem keys_subset_storeUpsert (s : Store) (es : List Entry) :
    storeKeys s ⊆ storeKeys (storeUpsert s es) := by
  induction es generalizing s with
  | nil => exact fun _ h => h
  | cons e es ih =>
    exact fun k hk => ih (upsertOne s e) (keys_subset_upsertOne s e hk)

theorem mem_keys_storeUpsert (s : Store) (es : List Entry) :
    ∀ e ∈ es, e.1 ∈ storeKeys (storeUpsert s es) := by
  induction es generalizing s with
  | nil => intro e h; cases h
  | cons f es ih =>
    intro e he
    rcases List.mem_cons.1 he with rfl | he
    · exact keys_subset_storeUpsert (upsertOne s e) es (key_mem_upsertOne s e)
    · exact ih (upsertOne s f) e he

theorem storeUpsert_preserves (es : List Entry) :
    ∀ t : Store, (∀ e ∈ es, e.1 ∈ storeKeys t) →
      storeKeys (storeUpsert t es) = storeKeys t ∧
      (storeUpsert t es).length = t.length := by
  induction es with
  | nil => intro t _; exact ⟨rfl, rfl⟩
  | cons e es ih =>
    intro t h
    have h1 := keys_upsertOne_of_key (h e (by simp))
    have h2 := ih (upsertOne t e) (fun f hf => by
      rw [h1.1]; exact h f (by simp [hf]))
    exact ⟨h2.1.trans h1.1, h2.2.trans h1.2⟩

/-- Re-upserting the same batch neither grows the store nor changes its
key sequence. -/
theorem storeUpsert_idem (s : Store) (es : List Entry) :
    (storeUpsert (storeUpsert s es) es).length = (storeUpsert s es).length ∧
    storeKeys (storeUpsert (storeUpsert s es) es) = storeKeys (storeUpsert s es) := by
  have h := storeUpsert_preserves es (storeUpsert s es) (mem_keys_storeUpsert s es)
  exact ⟨h.2, h.1⟩

/-- C1: chunk-and-index is idempotent: two runs of `chunk_book_text` on
the same document produce the same ordered id list and the same chunk
count; the ids are derived deterministically from the document
identifier and the chunk index; and upserting the second run's chunks
into any store that already received the first run's replaces them
(the store's length and key sequence are unchanged) rather than
duplicating them. -/
theorem chunkBookText_indexing_idempotent (fuel : Nat) (bid title text : Str)
    (c₁ c₂ : List Str) (m₁ m₂ : List Meta) (i₁ i₂ : List Str) (s : Store)
    (h1 : chunkBookText fuel bid title text = .val (c₁, m₁, i₁))
    (h2 : chunkBookText fuel bid title text = .val (c₂, m₂, i₂)) :
    i₁ = i₂ ∧ c₁.length = c₂.length ∧
    i₁ = (List.range c₁.length).map (chunkIdOf bid) ∧
    (storeUpsert (storeUpsert s (mkEntries c₁ m₁ i₁)) (mkEntries c₁ m₁ i₁)).length
      = (storeUpsert s (mkEntries c₁ m₁ i₁)).length ∧
    storeKeys (storeUpsert (storeUpsert s (mkEntries c₁ m₁ i₁)) (mkEntries c₁ m₁ i₁))
      = storeKeys (storeUpsert s (mkEntries c₁ m₁ i₁)) := by
  have hsame : c₁ = c₂ ∧ m₁ = m₂ ∧ i₁ = i₂ := by
    rw [h1] at h2
    injection h2 with h2'
    exact ⟨congrArg (·.1) h2', congrArg (·.2.1) h2', congrArg (·.2.2) h2'⟩
  have hids : i₁ = (List.range c₁.length).map (chunkIdOf bid) := by
    unfold chunkBookText at h1
    dsimp only at h1
    split at h1
    · cases h1
    · cases h1
    · injection h1 with h'
      have hc : c₁ = [] := (congrArg (·.1) h').symm
      have hi : i₁ = [] := (congrArg (·.2.2) h').symm
      simp [hc, hi]
    · injection h1 with h'
      have hc : c₁ = _ := (congrArg (·.1) h').symm
      have hi : i₁ = _ := (congrArg (·.2.2) h').symm
      rw [hi, hc]
  refine ⟨hsame.2.2, by rw [hsame.1], hids, ?_, ?_⟩
  · exact (storeUpsert_idem s (mkEntries c₁ m₁ i₁)).1
  · exact (storeUpsert_idem s (mkEntries c₁ m₁ i₁)).2

theorem chunkBookText_indexing_idempotent_witness :
    chunkBookText 100 (lit "doc1") (lit "T") (lit "Hello world.")
      = .val ([lit "Hello ", lit "world."],
          [⟨lit "doc1", lit "T", 0, lit "full_text"⟩,
           ⟨lit "doc1", lit "T", 1, lit "full_text"⟩],
          [lit "doc1_fulltext_chunk_0", lit "doc1_fulltext_chunk_1"]) ∧
    ([lit "doc1_fulltext_chunk_0", lit "doc1_fulltext_chunk_1"]
        = [lit "doc1_fulltext_chunk_0", lit "doc1_fulltext_chunk_1"] ∧
      (2 : Nat) = 2 ∧
      [lit "doc1_fulltext_chunk_0", lit "doc1_fulltext_chunk_1"]
        = (List.range ([lit "Hello ", lit "world."]).length).map (chunkIdOf (lit "doc1")) ∧
      (storeUpsert (storeUpsert []
          (mkEntries [lit "Hello ", lit "world."]
            [⟨lit "doc1", lit "T", 0, lit "full_text"⟩,
             ⟨lit "doc1", lit "T", 1, lit "full_text"⟩]
            [lit "doc1_fulltext_chunk_0", lit "doc1_fulltext_chunk_1"]))
          (mkEntries [lit "Hello ", lit "world."]
            [⟨lit "doc1", lit "T", 0, lit "full_text"⟩,
             ⟨lit "doc1", lit "T", 1, lit "full_text"⟩]
            [lit "doc1_fulltext_chunk_0", lit "doc1_fulltext_chunk_1"])).length
        = (storeUpsert []
            (mkEntries [lit "Hello ", lit "world."]
              [⟨lit "doc1", lit "T", 0, lit "full_text"⟩,
               ⟨lit "doc1", lit "T", 1, lit "full_text"⟩]
              [lit "doc1_fulltext_chunk_0", lit "doc1_fulltext_chunk_1"])).length ∧
      storeKeys (storeUpsert (storeUpsert []
          (mkEntries [lit "Hello ", lit "world."]
            [⟨lit "doc1", lit "T", 0, lit "full_text"⟩,
             ⟨lit "doc1", lit "T", 1, lit "full_text"⟩]
            [lit "doc1_fulltext_chunk_0", lit "doc1_fulltext_chunk_1"]))
          (mkEntries [lit "Hello ", lit "world."]
            [⟨lit "doc1", lit "T", 0, lit "full_text"⟩,
             ⟨lit "doc1", lit "T", 1, lit "full_text"⟩]
            [lit "doc1_fulltext_chunk_0", lit "doc1_fulltext_chunk_1"]))
        = storeKeys (storeUpsert []
            (mkEntries [lit "Hello ", lit "world."]
              [⟨lit "doc1", lit "T", 0, lit "full_text"⟩,
               ⟨lit "doc1", lit "T", 1, lit "full_text"⟩]
              [lit "doc1_fulltext_chunk_0", lit "doc1_fulltext_chunk_1"]))) := by
  have h : chunkBookText 100 (lit "doc1") (lit "T") (lit "Hello world.")
      = .val ([lit "Hello ", lit "world."],
          [⟨lit "doc1", lit "T", 0, lit "full_text"⟩,
           ⟨lit "doc1", lit "T", 1, lit "full_text"⟩],
          [lit "doc1_fulltext_chunk_0", lit "doc1_fulltext_chunk_1"]) := by decide
  exact ⟨h, chunkBookText_indexing_idempotent 100 (lit "doc1") (lit "T")
    (lit "Hello world.") _ _ _ _ _ _ [] h h⟩

/-! ### C2: segmentation never raises -/

theorem simpleLoop_not_exn (text : Str) (cs : Int) :
    ∀ (fuel : Nat) (start : Int) (acc : List Str) (e : PyErr),
      simpleLoop text cs fuel start acc ≠ .exn e := by
  intro fuel
  induction fuel with
  | zero => intro start acc e h; simp [simpleLoop] at h
  | succ f ih =>
    intro start acc e h
    simp only [simpleLoop] at h
    split at h
    · split at h
      · cases h
      · exact ih _ _ _ h
    · cases h

theorem simpleCharChunk_not_exn (fuel : Nat) (text : Str) (cs : Int) (e : PyErr) :
    simpleCharChunk fuel text cs ≠ .exn e := by
  unfold simpleCharChunk
  split
  · intro h; cases h
  · intro h
    rcases hl : simpleLoop text cs fuel 0 [] with l | e2 | _ <;> rw [hl] at h
    · cases h
    · exact simpleLoop_not_exn text cs fuel 0 [] e2 hl
    · cases h

/-- C2: for every input text, chunk size and strategy, `chunk_text`
never raises: an exception in the dispatched strategy is caught, and
the answer is then exactly the simple fixed-width character splitter
applied to the cleaned text. -/
theorem chunkText_never_raises (fuel : Nat) (text : Str) (cs : Int)
    (strat : ChunkStrategy) (ov : Int) :
    (∀ e, chunkText fuel text cs strat ov ≠ .exn e) ∧
    (∀ e, ¬(pyStrip text).isEmpty = true →
      dispatchStrategy fuel (cleanText text) cs strat ov = .exn e →
      chunkText fuel text cs strat ov = simpleCharChunk fuel (cleanText text) cs) := by
  constructor
  · intro e
    unfold chunkText
    split
    · intro h; cases h
    · dsimp only
      rcases hd : dispatchStrategy fuel (cleanText text) cs strat ov with l | e2 | _
      · intro h; cases h
      · exact simpleCharChunk_not_exn fuel (cleanText text) cs e
      · intro h; cases h
  · intro e hne hd
    unfold chunkText
    rw [if_neg hne]
    dsimp only
    rw [hd]

theorem chunkText_never_raises_witness :
    ¬(pyStrip (lit "aaaa")).isEmpty = true ∧
    dispatchStrategy 5 (cleanText (lit "aaaa")) 0 .sentence 50 = .exn .valueError ∧
    chunkText 5 (lit "aaaa") 0 .sentence 50 = simpleCharChunk 5 (cleanText (lit "aaaa")) 0 := by
  refine ⟨by decide, by decide, ?_⟩
  exact (chunkText_never_raises 5 (lit "aaaa") 0 .sentence 50).2 .valueError
    (by decide) (by decide)

/-! ### C3: size bound of sentence-based segmentation -/

theorem dropWhileLenLe {α : Type} (p : α → Bool) (l : List α) :
    (l.dropWhile p).length ≤ l.length := by
  induction l with
  | nil => simp
  | cons c r ih =>
    rw [List.dropWhile_cons]
    split
    · exact Nat.le_succ_of_le ih
    · exact Nat.le_refl _

theorem pyStrip_length_le (s : Str) : (pyStrip s).length ≤ s.length := by
  unfold pyStrip
  calc ((s.dropWhile pyIsSpace).reverse.dropWhile pyIsSpace).reverse.length
      = ((s.dropWhile pyIsSpace).reverse.dropWhile pyIsSpace).length := by
        rw [List.length_reverse]
    _ ≤ (s.dropWhile pyIsSpace).reverse.length := dropWhileLenLe _ _
    _ = (s.dropWhile pyIsSpace).length := by rw [List.length_reverse]
    _ ≤ s.length := dropWhileLenLe _ _

theorem sentAccum_bound (cs : Int) (sentences : List Str)
    (hs : ∀ s ∈ sentences, (s.length : Int) ≤ cs) :
    ∀ chunks current, (∀ c ∈ chunks, (c.length : Int) ≤ cs) →
      ((current.length : Int) ≤ cs) →
      ∀ ch cur, sentAccum cs sentences chunks current = .ok (ch, cur) →
        (∀ c ∈ ch, (c.length : Int) ≤ cs) ∧ ((cur.length : Int) ≤ cs) := by
  induction sentences with
  | nil =>
    intro chunks current hc hcur ch cur h
    rw [sentAccum] at h
    injection h with h'
    have h1 : chunks = ch := congrArg Prod.fst h'
    have h2 : current = cur := congrArg Prod.snd h'
    subst h1; subst h2
    exact ⟨hc, hcur⟩
  | cons s rest ih =>
    intro chunks current hc hcur ch cur h
    have hslen : (s.length : Int) ≤ cs := hs s (List.mem_cons_self _ _)
    have hrest : ∀ x ∈ rest, (x.length : Int) ≤ cs :=
      fun x hx => hs x (List.mem_cons_of_mem _ hx)
    rw [sentAccum] at h
    split at h
    · exact ih hrest chunks current hc hcur ch cur h
    · dsimp only at h
      by_cases hpot : (((if current.isEmpty then s else current ++ ' ' :: s).length : Int) ≤ cs)
      · rw [if_pos hpot] at h
        exact ih hrest chunks _ hc hpot ch cur h
      · rw [if_neg hpot] at h
        have hnot : ¬ ((s.length : Int) > cs) := by omega
        rw [if_neg hnot] at h
        by_cases hce : current.isEmpty
        · rw [if_pos hce] at h
          exact ih hrest chunks s hc hslen ch cur h
        · rw [if_neg hce] at h
          refine ih hrest (chunks ++ [pyStrip current]) s ?_ hslen ch cur h
          intro c hcm
          rcases List.mem_append.1 hcm with hcm | hcm
          · exact hc c hcm
          · rw [List.mem_singleton.1 hcm]
            calc ((pyStrip current).length : Int) ≤ (current.length : Int) := by
                  exact_mod_cast pyStrip_length_le current
              _ ≤ cs := hcur

/-- C3: when every sentence produced by the splitter has length at most
500 (the formalisation of "at least one sentence boundary per 500
characters"), every chunk returned by sentence-based segmentation with
`target_size = 500` has length at most 1000 (indeed at most 500). -/
theorem chunkBySentences_size_bound (text : Str) (l : List Str)
    (hs : ∀ s ∈ processedSentences text, (s.length : Int) ≤ 500)
    (h : chunkBySentences text 500 = .ok l) :
    ∀ c ∈ l, (c.length : Int) ≤ 1000 := by
  unfold chunkBySentences at h
  rcases hacc : sentAccum 500 (processedSentences text) [] [] with e | ⟨chunks, current⟩ <;>
    rw [hacc] at h
  · cases h
  · have hb := sentAccum_bound 500 (processedSentences text) hs [] []
      (by intro c hc; cases hc) (by simp) chunks current hacc
    dsimp only at h
    injection h with h'
    subst h'
    intro c hc
    have hcf := (List.mem_filter.1 hc).1
    have hle : (c.length : Int) ≤ 500 := by
      by_cases hcc : (current.isEmpty || (pyStrip current).isEmpty) = true
      · rw [if_pos hcc] at hcf
        exact hb.1 c hcf
      · rw [if_neg hcc] at hcf
        rcases List.mem_append.1 hcf with hm | hm
        · exact hb.1 c hm
        · rw [List.mem_singleton.1 hm]
          calc ((pyStrip current).length : Int) ≤ (current.length : Int) := by
                exact_mod_cast pyStrip_length_le current
            _ ≤ 500 := hb.2
    omega

theorem chunkBySentences_size_bound_witness :
    (∀ s ∈ processedSentences (lit "Hi. Go."), ((s.length : Int) ≤ 500)) ∧
    chunkBySentences (lit "Hi. Go.") 500 = .ok [lit "Hi. Go."] ∧
    ∀ c ∈ [lit "Hi. Go."], (c.length : Int) ≤ 1000 := by
  refine ⟨by decide, rfl, ?_⟩
  exact chunkBySentences_size_bound (lit "Hi. Go.") [lit "Hi. Go."]
    (by decide) rfl

/-! ### C10: the segmenter never emits a whitespace-only chunk -/

theorem mem_of_mem_dropWhile {α : Type} (p : α → Bool) (l : List α) :
    ∀ x ∈ l.dropWhile p, x ∈ l := by
  induction l with
  | nil => intro x h; cases h
  | cons c r ih =>
    intro x h
    rw [List.dropWhile_cons] at h
    split at h
    · exact List.mem_cons_of_mem _ (ih x h)
    · exact h

theorem dropWhile_head_false {α : Type} (p : α → Bool) (l : List α) (c : α) (r : List α) :
    l.dropWhile p = c :: r → p c = false := by
  induction l with
  | nil => intro h; cases h
  | cons d t ih =>
    intro h
    rw [List.dropWhile_cons] at h
    split at h
    · exact ih h
    · rename_i hd
      injection h with h1 _
      subst h1
      exact Bool.not_eq_true _ |>.mp hd

theorem mem_dropWhile_or {α : Type} (p : α → Bool) (l : List α) :
    ∀ x ∈ l, p x = true ∨ x ∈ l.dropWhile p := by
  induction l with
  | nil => intro x h; cases h
  | cons c r ih =>
    intro x h
    rw [List.dropWhile_cons]
    rcases List.mem_cons.1 h with rfl | h
    · by_cases hc : p x = true
      · exact Or.inl hc
      · right; rw [if_neg (by simp [hc])]; exact List.mem_cons_self _ _
    · by_cases hc : p c = true
      · rw [if_pos hc]; exact ih x h
      · right; rw [if_neg (by simp [hc])]; exact List.mem_cons_of_mem _ h

theorem strip_isEmpty_false_of_hasNonWs {s : Str} (h : hasNonWs s) :
    (pyStrip s).isEmpty = false := by
  rcases h with ⟨c, hc, hcw⟩
  have hne : pyStrip s ≠ [] := by
    intro hnil
    unfold pyStrip at hnil
    rw [List.reverse_eq_nil_iff] at hnil
    rcases mem_dropWhile_or pyIsSpace s c hc with h1 | h1
    · rw [h1] at hcw; cases hcw
    · rcases mem_dropWhile_or pyIsSpace (s.dropWhile pyIsSpace).reverse c
        (List.mem_reverse.2 h1) with h2 | h2
      · rw [h2] at hcw; cases hcw
      · rw [hnil] at h2; cases h2
  cases hps : pyStrip s with
  | nil => exact absurd hps hne
  | cons _ _ => rfl

theorem hasNonWs_of_strip_not_empty {s : Str} (h : (pyStrip s).isEmpty = false) :
    hasNonWs s := by
  have hne : pyStrip s ≠ [] := by intro hnil; rw [hnil] at h; cases h
  rcases hd : ((s.dropWhile pyIsSpace).reverse.dropWhile pyIsSpace) with _ | ⟨d, r⟩
  · exfalso; apply hne; unfold pyStrip; rw [hd]; rfl
  · refine ⟨d, ?_, dropWhile_head_false _ _ _ _ hd⟩
    have hdm : d ∈ (s.dropWhile pyIsSpace).reverse.dropWhile pyIsSpace := by
      rw [hd]; exact List.mem_cons_self _ _
    exact mem_of_mem_dropWhile _ _ d
      (List.mem_reverse.1 (mem_of_mem_dropWhile _ _ d hdm))

theorem hasNonWs_pyStrip {s : Str} (h : hasNonWs s) : hasNonWs (pyStrip s) := by
  have hie := strip_isEmpty_false_of_hasNonWs h
  rcases hd : ((s.dropWhile pyIsSpace).reverse.dropWhile pyIsSpace) with _ | ⟨d, r⟩
  · exfalso
    have : pyStrip s = [] := by unfold pyStrip; rw [hd]; rfl
    rw [this] at hie; cases hie
  · refine ⟨d, ?_, dropWhile_head_false _ _ _ _ hd⟩
    unfold pyStrip
    rw [hd]
    exact List.mem_reverse.2 (List.mem_cons_self _ _)

theorem sentPunct_not_ws {c : Char} (h : isSentPunct c = true) : pyIsSpace c = false := by
  simp [isSentPunct] at h
  rcases h with (rfl | rfl) | rfl <;> rfl

theorem hasNonWs_collapseAux (s : Str) :
    ∀ b : Bool, hasNonWs s → hasNonWs (collapseWsAux b s) := by
  induction s with
  | nil => intro b h; rcases h with ⟨c, hc, _⟩; cases hc
  | cons c r ih =>
    intro b h
    rcases h with ⟨c0, hc0, hw0⟩
    rw [collapseWsAux]
    by_cases hcw : pyIsSpace c = true
    · have hc0r : c0 ∈ r := by
        rcases List.mem_cons.1 hc0 with rfl | hh
        · rw [hcw] at hw0; cases hw0
        · exact hh
      rcases ih true ⟨c0, hc0r, hw0⟩ with ⟨d, hd, hw⟩
      rw [if_pos hcw]
      cases b with
      | true => exact ⟨d, hd, hw⟩
      | false => exact ⟨d, List.mem_cons_of_mem _ hd, hw⟩
    · rw [if_neg hcw]
      exact ⟨c, List.mem_cons_self _ _, Bool.not_eq_true _ |>.mp hcw⟩

theorem hasNonWs_fp1Aux (s : Str) :
    ∀ m : Option Str, hasNonWs s → hasNonWs (fixPunct1Aux m s) := by
  induction s with
  | nil => intro m h; rcases h with ⟨c, hc, _⟩; cases hc
  | cons c r ih =>
    intro m h
    rcases h with ⟨c0, hc0, hw0⟩
    have hc0r : pyIsSpace c = true → c0 ∈ r := by
      intro hcw
      rcases List.mem_cons.1 hc0 with rfl | hh
      · rw [hcw] at hw0; cases hw0
      · exact hh
    match m with
    | none =>
      rw [fixPunct1Aux]
      by_cases hp : isSentPunct c = true
      · rw [if_pos hp]
        exact ⟨c, List.mem_cons_self _ _, sentPunct_not_ws hp⟩
      · rw [if_neg hp]
        by_cases hcw : pyIsSpace c = true
        · rcases ih none ⟨c0, hc0r hcw, hw0⟩ with ⟨d, hd, hw⟩
          exact ⟨d, List.mem_cons_of_mem _ hd, hw⟩
        · exact ⟨c, List.mem_cons_self _ _, Bool.not_eq_true _ |>.mp hcw⟩
    | some buf =>
      rw [fixPunct1Aux]
      by_cases hws : pyIsSpace c = true
      · rw [if_pos hws]
        exact ih (some (c :: buf)) ⟨c0, hc0r hws, hw0⟩
      · rw [if_neg hws]
        have hcnw : pyIsSpace c = false := Bool.not_eq_true _ |>.mp hws
        by_cases hu : isUpperAZ c = true
        · rw [if_pos hu]
          exact ⟨c, List.mem_cons_of_mem _ (List.mem_cons_self _ _), hcnw⟩
        · rw [if_neg hu]
          by_cases hp : isSentPunct c = true
          · rw [if_pos hp]
            exact ⟨c, List.mem_append_right _ (List.mem_cons_self _ _), hcnw⟩
          · rw [if_neg hp]
            exact ⟨c, List.mem_append_right _ (List.mem_cons_self _ _), hcnw⟩

theorem hasNonWs_fp2 (s : Str) : hasNonWs s → hasNonWs (fixPunct2 s) := by
  induction s with
  | nil => intro h; rcases h with ⟨c, hc, _⟩; cases hc
  | cons c r ih =>
    intro h
    rcases h with ⟨c0, hc0, hw0⟩
    match r with
    | [] =>
      rcases List.mem_cons.1 hc0 with rfl | hh
      · exact ⟨c0, List.mem_cons_self _ _, hw0⟩
      · cases hh
    | d :: t =>
      rw [fixPunct2]
      by_cases hm : (isSentPunct c && isAlphaAZ d) = true
      · rw [if_pos hm]
        exact ⟨c, List.mem_cons_self _ _,
          sentPunct_not_ws (Bool.and_eq_true _ _ |>.mp hm).1⟩
      · rw [if_neg hm]
        by_cases hcw : pyIsSpace c = true
        · have hc0r : c0 ∈ d :: t := by
            rcases List.mem_cons.1 hc0 with rfl | hh
            · rw [hcw] at hw0; cases hw0
            · exact hh
          rcases ih ⟨c0, hc0r, hw0⟩ with ⟨e, he, hw⟩
          exact ⟨e, List.mem_cons_of_mem _ he, hw⟩
        · exact ⟨c, List.mem_cons_self _ _, Bool.not_eq_true _ |>.mp hcw⟩

theorem hasNonWs_cleanText {s : Str} (h : (pyStrip s).isEmpty = false) :
    hasNonWs (cleanText s) := by
  exact hasNonWs_pyStrip
    (hasNonWs_fp2 _ (hasNonWs_fp1Aux _ none (hasNonWs_collapseAux s false
      (hasNonWs_of_strip_not_empty h))))

theorem mem_filter_strip {l : List Str} {c : Str}
    (h : c ∈ l.filter (fun c => !(pyStrip c).isEmpty)) :
    (pyStrip c).isEmpty = false := by
  have h2 := (List.mem_filter.1 h).2
  simpa using h2

theorem liftE_val {x : Except PyErr (List Str)} {l : List Str}
    (h : liftE x = .val l) : x = .ok l := by
  cases x with
  | error e => cases h
  | ok a => injection h with h'; rw [h']

theorem chunkBySentences_chunks_nonempty {t : Str} {cs : Int} {l : List Str}
    (h : chunkBySentences t cs = .ok l) : ∀ c ∈ l, (pyStrip c).isEmpty = false := by
  unfold chunkBySentences at h
  rcases hacc : sentAccum cs (processedSentences t) [] [] with e | ⟨chunks, current⟩ <;>
    rw [hacc] at h
  · cases h
  · dsimp only at h
    injection h with h'
    subst h'
    intro c hc
    exact mem_filter_strip hc

theorem chunkByParagraphs_chunks_nonempty {t : Str} {cs : Int} {l : List Str}
    (h : chunkByParagraphs t cs = .ok l) : ∀ c ∈ l, (pyStrip c).isEmpty = false := by
  unfold chunkByParagraphs at h
  rcases hacc : paraAccum cs (splitParagraphs t) [] [] with e | ⟨chunks, current⟩ <;>
    rw [hacc] at h
  · cases h
  · dsimp only at h
    injection h with h'
    subst h'
    intro c hc
    exact mem_filter_strip hc

theorem chunkBySemantic_chunks_nonempty {t : Str} {cs : Int} {l : List Str}
    (h : chunkBySemantic t cs = .ok l) : ∀ c ∈ l, (pyStrip c).isEmpty = false := by
  unfold chunkBySemantic at h
  dsimp only at h
  split at h
  · cases h
  · injection h with h'
    subst h'
    intro c hc
    exact mem_filter_strip hc

theorem chunkSliding_chunks_nonempty {fuel : Nat} {t : Str} {cs ov : Int} {l : List Str}
    (hnw : hasNonWs t) (h : chunkSliding fuel t cs ov = .val l) :
    ∀ c ∈ l, (pyStrip c).isEmpty = false := by
  unfold chunkSliding at h
  split at h
  · injection h with h'
    subst h'
    intro c hc
    rw [List.mem_singleton.1 hc]
    exact strip_isEmpty_false_of_hasNonWs hnw
  · rcases hl : slidingLoop t cs ov fuel 0 [] with l2 | e | _ <;> rw [hl] at h
    · injection h with h'
      subst h'
      intro c hc
      exact mem_filter_strip hc
    · cases h
    · cases h

theorem simpleCharChunk_chunks_nonempty {fuel : Nat} {t : Str} {cs : Int} {l : List Str}
    (hnw : hasNonWs t) (h : simpleCharChunk fuel t cs = .val l) :
    ∀ c ∈ l, (pyStrip c).isEmpty = false := by
  unfold simpleCharChunk at h
  split at h
  · injection h with h'
    subst h'
    intro c hc
    rw [List.mem_singleton.1 hc]
    exact strip_isEmpty_false_of_hasNonWs hnw
  · rcases hl : simpleLoop t cs fuel 0 [] with l2 | e | _ <;> rw [hl] at h
    · injection h with h'
      subst h'
      intro c hc
      exact mem_filter_strip hc
    · cases h
    · cases h

theorem chunkAdaptive_chunks_nonempty {fuel : Nat} {t : Str} {cs : Int} {l : List Str}
    (hnw : hasNonWs t) (h : chunkAdaptive fuel t cs = .val l) :
    ∀ c ∈ l, (pyStrip c).isEmpty = false := by
  unfold chunkAdaptive at h
  dsimp only at h
  repeat' split at h
  all_goals first
    | exact chunkByParagraphs_chunks_nonempty (liftE_val h)
    | exact chunkSliding_chunks_nonempty hnw h
    | exact chunkBySemantic_chunks_nonempty (liftE_val h)
    | exact chunkBySentences_chunks_nonempty (liftE_val h)

theorem dispatchStrategy_chunks_nonempty {fuel : Nat} {t : Str} {cs ov : Int}
    {strat : ChunkStrategy} {l : List Str} (hnw : hasNonWs t)
    (h : dispatchStrategy fuel t cs strat ov = .val l) :
    ∀ c ∈ l, (pyStrip c).isEmpty = false := by
  cases strat with
  | sentence => exact chunkBySentences_chunks_nonempty (liftE_val h)
  | paragraph => exact chunkByParagraphs_chunks_nonempty (liftE_val h)
  | semantic => exact chunkBySemantic_chunks_nonempty (liftE_val h)
  | sliding => exact chunkSliding_chunks_nonempty hnw h
  | adaptive => exact chunkAdaptive_chunks_nonempty hnw h

/-- C10: for every input text, chunk size and strategy, every string in
a list returned by `chunk_text` is non-empty after stripping whitespace,
including on the fallback character-splitting path. -/
theorem chunkText_chunks_nonempty (fuel : Nat) (text : Str) (cs : Int)
    (strat : ChunkStrategy) (ov : Int) (l : List Str)
    (h : chunkText fuel text cs strat ov = .val l) :
    ∀ c ∈ l, (pyStrip c).isEmpty = false := by
  unfold chunkText at h
  by_cases hs : (pyStrip text).isEmpty = true
  · rw [if_pos hs] at h
    injection h with h'
    subst h'
    intro c hc
    cases hc
  · rw [if_neg hs] at h
    dsimp only at h
    have hnw : hasNonWs (cleanText text) :=
      hasNonWs_cleanText (Bool.not_eq_true _ |>.mp hs)
    rcases hd : dispatchStrategy fuel (cleanText text) cs strat ov with r | e | _ <;>
      rw [hd] at h
    · injection h with h'
      subst h'
      exact dispatchStrategy_chunks_nonempty hnw hd
    · exact simpleCharChunk_chunks_nonempty hnw h
    · cases h

theorem chunkText_chunks_nonempty_witness :
    chunkText 100 (lit "Hello world.") 6 .sentence 50
      = .val [lit "Hello ", lit "world."] ∧
    ∀ c ∈ [lit "Hello ", lit "world."], (pyStrip c).isEmpty = false := by
  refine ⟨rfl, ?_⟩
  exact chunkText_chunks_nonempty 100 (lit "Hello world.") 6 .sentence 50 _ rfl

/-! ### C4 / C8: the multi-strategy merge -/

theorem insertItem_mem {x : Item} {s s' : List Item}
    (h : insertItem x s = .ok s') : ∀ a, a ∈ s' ↔ a = x ∨ a ∈ s := by
  induction s generalizing s' with
  | nil =>
    injection h with h'
    subst h'
    intro a
    simp
  | cons y ys ih =>
    unfold insertItem at h
    rcases hc : cmpLtItem y x with e | b <;> rw [hc] at h
    · cases h
    · cases b with
      | true =>
        rcases hi : insertItem x ys with e | s2 <;> rw [hi] at h
        · cases h
        · injection h with h'
          subst h'
          intro a
          rw [List.mem_cons, ih hi a, List.mem_cons]
          tauto
      | false =>
        injection h with h'
        subst h'
        intro a
        simp only [List.mem_cons]

theorem pySortItems_mem {s s' : List Item}
    (h : pySortItems s = .ok s') : ∀ a, a ∈ s' ↔ a ∈ s := by
  induction s generalizing s' with
  | nil =>
    injection h with h'
    subst h'
    intro a
    rfl
  | cons x xs ih =>
    unfold pySortItems at h
    rcases hs : pySortItems xs with e | s2 <;> rw [hs] at h
    · cases h
    · intro a
      rw [insertItem_mem h a, ih hs a, List.mem_cons]

theorem dedupStep_docs_mono (n : Nat) (st : dedupState) (it : Item) :
    st.2.1.length ≤ (dedupStep n st it).2.1.length ∧
    ∀ d ∈ st.2.1, d ∈ (dedupStep n st it).2.1 := by
  unfold dedupStep
  split
  · exact ⟨by simp, fun d hd => List.mem_append_left _ hd⟩
  · exact ⟨Nat.le_refl _, fun _ hd => hd⟩

theorem dedupStep_inv (n : Nat) (st : dedupState) (it : Item)
    (h : dedupInv st) : dedupInv (dedupStep n st it) := by
  unfold dedupStep
  split
  · rename_i hcond
    have hnc : ¬ it.1 ∈ st.2.1 := fun hm => by
      have := (h.2 it.1).2 hm
      have hc2 : st.1.contains it.1 = true := List.elem_iff.2 this
      rw [hc2] at hcond
      exact absurd hcond.1 (by simp)
    constructor
    · simpa [List.nodup_append] using ⟨h.1, hnc⟩
    · intro d
      simp only [List.mem_cons, List.mem_append, List.mem_singleton, h.2 d]
      tauto
  · exact h

theorem dedupFold_inv (n : Nat) (items : List Item) :
    ∀ st, dedupInv st → dedupInv (items.foldl (dedupStep n) st) := by
  induction items with
  | nil => exact fun st h => h
  | cons x xs ih => exact fun st h => ih _ (dedupStep_inv n st x h)

theorem dedupFold_docs_mono (n : Nat) (items : List Item) :
    ∀ st, st.2.1.length ≤ (items.foldl (dedupStep n) st).2.1.length ∧
      ∀ d ∈ st.2.1, d ∈ (items.foldl (dedupStep n) st).2.1 := by
  induction items with
  | nil => exact fun st => ⟨Nat.le_refl _, fun _ hd => hd⟩
  | cons x xs ih =>
    intro st
    have h1 := dedupStep_docs_mono n st x
    have h2 := ih (dedupStep n st x)
    exact ⟨h1.1.trans h2.1, fun d hd => h2.2 d (h1.2 d hd)⟩

theorem dedupFold_complete (n : Nat) (items : List Item) :
    ∀ st, dedupInv st →
      (items.foldl (dedupStep n) st).2.1.length < n * 3 →
      ∀ it ∈ items, it.1 ∈ (items.foldl (dedupStep n) st).2.1 := by
  induction items with
  | nil => intro st _ _ it h; cases h
  | cons x xs ih =>
    intro st hinv hlen it hit
    simp only [List.foldl_cons] at hlen
    rcases List.mem_cons.1 hit with rfl | hit
    · by_cases hseen : it.1 ∈ st.2.1
      · exact (dedupFold_docs_mono n xs _).2 _ ((dedupStep_docs_mono n st it).2 _ hseen)
      · by_cases hcap : st.2.1.length < n * 3
        · have hx : it.1 ∈ (dedupStep n st it).2.1 := by
            unfold dedupStep
            have hnc : st.1.contains it.1 = false := by
              rcases hh : st.1.contains it.1 with _ | _
              · rfl
              · exact absurd ((hinv.2 it.1).1 (List.elem_iff.1 hh)) hseen
            rw [if_pos ⟨by rw [hnc]; rfl, hcap⟩]
            exact List.mem_append_right _ (List.mem_singleton.2 rfl)
          exact (dedupFold_docs_mono n xs _).2 _ hx
        · exfalso
          have h1 := (dedupStep_docs_mono n st it).1
          have h2 := (dedupFold_docs_mono n xs (dedupStep n st it)).1
          omega
    · exact ih (dedupStep n st x) (dedupStep_inv n st x hinv) hlen it hit

/-- C4 (amended): the merged output of `query_with_multiple_strategies`
never contains a chunk text twice; and a text returned by the base
query or any probe query appears (hence exactly once) provided the
priority sort succeeded and the output was not truncated at the
`3 * n_results` dedup cap. -/
theorem mts_dedup_by_text (query : Str → Nat → RawRes) (q : Str) (n : Nat) :
    ((queryMultipleStrategies query q n).documents.headD []).Nodup ∧
    (∀ (T : Str) (sorted : List Item),
      pySortItems (mtsItems query q n) = .ok sorted →
      T ∈ (mtsItems query q n).map (·.1) →
      ((queryMultipleStrategies query q n).documents.headD []).length < n * 3 →
      T ∈ (queryMultipleStrategies query q n).documents.headD []) := by
  constructor
  · unfold queryMultipleStrategies
    rcases hs : pySortItems (mtsItems query q n) with e | sorted
    · simp [emptyRawRes]
    · dsimp only
      simpa using (dedupFold_inv n sorted ([], ([], [], [])) ⟨List.nodup_nil, by simp⟩).1
  · intro T sorted hs hT hlen
    unfold queryMultipleStrategies at hlen ⊢
    rw [hs] at hlen ⊢
    dsimp only at hlen ⊢
    simp only [List.headD_cons] at hlen ⊢
    rcases List.mem_map.1 hT with ⟨it, hitmem, rfl⟩
    have hsor : it ∈ sorted := (pySortItems_mem hs it).2 hitmem
    exact dedupFold_complete n sorted ([], ([], [], []))
      ⟨List.nodup_nil, by simp⟩ hlen it hsor

/-- C8 (amended): whenever the priority sort raises (`None` compared
with a numeric distance inside the same priority class), the
surrounding `except` returns the empty result dict — the merge never
raises to its caller, but the `None`-distance hits are discarded rather
than ranked at worst priority. -/
theorem mts_sort_error_gives_empty (query : Str → Nat → RawRes) (q : Str)
    (n : Nat) (e : Unit) (h : pySortItems (mtsItems query q n) = .error e) :
    queryMultipleStrategies query q n = emptyRawRes := by
  unfold queryMultipleStrategies
  rw [h]

/-- C4, counterexample to the claim as stated: with `n_results = 1` the
base query and the probe query "I arrived" both return the text `TT`,
yet the merged output (capped at `3 * n_results = 3` unique texts,
which better-ranked candidates exhaust first) contains `TT` zero times,
not exactly once. -/
theorem mts_dedup_counterexample :
    (envC4query (lit "qq") 1).documents.headD [] = [lit "TT"] ∧
    (envC4query (lit "I arrived") 3).documents.headD [] = [lit "TT"] ∧
    (queryMultipleStrategies envC4query (lit "qq") 1).documents.headD []
      = [lit "XX", lit "YY", lit "ZZ"] ∧
    ((queryMultipleStrategies envC4query (lit "qq") 1).documents.headD []).count
      (lit "TT") = 0 := by
  exact ⟨by decide, by decide, by decide, by decide⟩

theorem mts_dedup_by_text_witness :
    pySortItems (mtsItems envWquery (lit "qw") 2) = .ok [(lit "TW", metaZ, some 1)] ∧
    (lit "TW") ∈ (mtsItems envWquery (lit "qw") 2).map (·.1) ∧
    ((queryMultipleStrategies envWquery (lit "qw") 2).documents.headD []).length < 2 * 3 ∧
    ((queryMultipleStrategies envWquery (lit "qw") 2).documents.headD []).Nodup ∧
    (lit "TW") ∈ (queryMultipleStrategies envWquery (lit "qw") 2).documents.headD [] := by
  refine ⟨by decide, by decide, by decide, ?_, ?_⟩
  · exact (mts_dedup_by_text envWquery (lit "qw") 2).1
  · exact (mts_dedup_by_text envWquery (lit "qw") 2).2 (lit "TW")
      [(lit "TW", metaZ, some 1)] (by decide) (by decide) (by decide)

/-- C8, counterexample to the claim as stated: with a `None` and a
numeric distance in the same priority class the sort raises
`TypeError`; the catch-all `except` then returns the empty result dict,
so the `None`-distance hit is not placed at worst priority — it (and
every other hit) is absent from the merged output. -/
theorem mts_none_distance_counterexample :
    (envC8query (lit "q8") 5).distances.headD [] = [none, some 1] ∧
    pySortItems (mtsItems envC8query (lit "q8") 5) = .error () ∧
    queryMultipleStrategies envC8query (lit "q8") 5 = emptyRawRes ∧
    ¬ (lit "AA") ∈ (queryMultipleStrategies envC8query (lit "q8") 5).documents.headD [] := by
  exact ⟨by decide, by decide, by decide, by decide⟩

theorem mts_sort_error_gives_empty_witness :
    pySortItems (mtsItems envC8query (lit "q8") 5) = .error () ∧
    queryMultipleStrategies envC8query (lit "q8") 5 = emptyRawRes := by
  exact ⟨by decide,
    mts_sort_error_gives_empty envC8query (lit "q8") 5 () (by decide)⟩

/-! ### C5: the passage list handed to answer synthesis -/

theorem processQueryResults_length_le (results : RawRes) (q : Str) :
    (processQueryResults results q).length ≤ 5 := by
  unfold processQueryResults
  split
  · exact Nat.zero_le 5
  · dsimp only
    rw [List.length_take]
    exact min_le_left _ _

theorem queryRelevantChunks_length_le (query : Str → Nat → RawRes) (q : Str) :
    (queryRelevantChunks query q).length ≤ 5 := by
  unfold queryRelevantChunks
  exact processQueryResults_length_le _ q

theorem reprocessLoop_some_le (env : RetEnv) (fuel : Nat) (q : Str)
    (docs : List RDoc) (btr : List Str) :
    ∀ (books : List Book) (out : List RDoc),
      reprocessLoop env fuel q docs btr books = .val (some out) →
      out.length ≤ docs.length + 5 := by
  intro books
  induction books with
  | nil =>
    intro out h
    rw [reprocessLoop] at h
    injection h with h'
    cases h'
  | cons b rest ih =>
    intro out h
    rw [reprocessLoop] at h
    dsimp only at h
    repeat' split at h
    all_goals first
      | exact PyRes.noConfusion h
      | exact ih out h
      | (injection h with h'
         injection h' with h''
         rw [← h'', List.length_append]
         have := processQueryResults_length_le (env.query q 10) q
         omega)

theorem regularFallback_le (env : RetEnv) (fuel : Nat) (q : Str)
    (docs : List RDoc) (people events existing : List Str) (out : List RDoc)
    (h : regularFallback env fuel q docs people events existing = .val out) :
    out.length ≤ docs.length + 5 := by
  unfold regularFallback at h
  dsimp only at h
  repeat' split at h
  all_goals first
    | exact PyRes.noConfusion h
    | (injection h with h'; rw [← h']; omega)
    | (injection h with h'
       rw [← h', List.length_append]
       have := processQueryResults_length_le (env.query q 10) q
       omega)

theorem hlbfTry_le (env : RetEnv) (fuel : Nat) (q : Str) (docs : List RDoc)
    (people events existing : List Str) (out : List RDoc)
    (h : hlbfTry env fuel q docs people events existing = .val out) :
    out.length ≤ docs.length + 5 := by
  unfold hlbfTry at h
  dsimp only at h
  split at h
  · split at h
    · cases h
    · split at h
      · cases h
      · cases h
      · rename_i out2 heq
        injection h with h'
        rw [← h']
        exact reprocessLoop_some_le env fuel q docs _ _ out2 heq
      · exact regularFallback_le env fuel q docs people events existing out h
  · exact regularFallback_le env fuel q docs people events existing out h

theorem handleLocalBooksFallback_le (env : RetEnv) (fuel : Nat) (q : Str)
    (docs : List RDoc) (existing : List Str) (out : List RDoc)
    (h : handleLocalBooksFallback env fuel q docs existing = .val out) :
    out.length ≤ docs.length + 5 := by
  unfold handleLocalBooksFallback at h
  dsimp only at h
  split at h
  · injection h with h'
    rw [← h']
    omega
  · split at h
    · rename_i r heq
      injection h with h'
      rw [← h']
      exact hlbfTry_le env fuel q docs _ _ existing r heq
    · injection h with h'
      rw [← h']
      omega
    · cases h

/-- C5 (amended): the retrieved-passage list handed to answer synthesis
holds at most 10 hits — up to 5 from the initial query processing plus
up to 5 appended, without re-capping, by the local-books fallback. -/
theorem pipelineRetrieve_at_most_ten (env : RetEnv) (fuel : Nat) (q : Str)
    (existing : List Str) (out : List RDoc)
    (h : pipelineRetrieve env fuel q existing = .val out) :
    out.length ≤ 10 := by
  unfold pipelineRetrieve at h
  have h1 := handleLocalBooksFallback_le env fuel q
    (queryRelevantChunks env.query q) existing out h
  have h2 := queryRelevantChunks_length_le env.query q
  omega

/-- C5, counterexample to the claim as stated: after the local-books
fallback has appended its additional hits, the list handed to answer
synthesis holds 10 hits (the five initial ones followed by the five
re-queried ones), not at most 5. -/
theorem pipeline_cap_counterexample :
    pipelineRetrieve envC5 1 (lit "Who was Napoleon?") [lit "local_napoleon_bio"]
      = .val [rdocX 1, rdocX 2, rdocX 3, rdocX 4, rdocX 5,
              rdocX 1, rdocX 2, rdocX 3, rdocX 4, rdocX 5] ∧
    ([rdocX 1, rdocX 2, rdocX 3, rdocX 4, rdocX 5,
      rdocX 1, rdocX 2, rdocX 3, rdocX 4, rdocX 5] : List RDoc).length = 10 := by
  exact ⟨by decide, by decide⟩

theorem pipelineRetrieve_at_most_ten_witness :
    pipelineRetrieve envC5 1 (lit "Who was Napoleon?") [lit "local_napoleon_bio"]
      = .val [rdocX 1, rdocX 2, rdocX 3, rdocX 4, rdocX 5,
              rdocX 1, rdocX 2, rdocX 3, rdocX 4, rdocX 5] ∧
    ([rdocX 1, rdocX 2, rdocX 3, rdocX 4, rdocX 5,
      rdocX 1, rdocX 2, rdocX 3, rdocX 4, rdocX 5] : List RDoc).length ≤ 10 := by
  have h : pipelineRetrieve envC5 1 (lit "Who was Napoleon?")
      [lit "local_napoleon_bio"]
      = .val [rdocX 1, rdocX 2, rdocX 3, rdocX 4, rdocX 5,
              rdocX 1, rdocX 2, rdocX 3, rdocX 4, rdocX 5] := by decide
  exact ⟨h, pipelineRetrieve_at_most_ten envC5 1 (lit "Who was Napoleon?")
    [lit "local_napoleon_bio"] _ h⟩
